import Mathlib

/-!
# DRIXL core — shallow embedding and verification

Shallow embedding of the DRIXL message codec, format converter, format
detector and context store (sources: `drixl/message.py`, `drixl/verbs.py`,
`drixl/converter.py`, `drixl/structured.py`, `drixl/context_store.py`),
with theorems settling the specification's testable properties.

Modelling conventions:
* Python strings are Lean `String`s; the scanning functions work on the
  underlying `List Char`.
* `str.upper()` is modelled by `Char.toUpper` (ASCII); every vocabulary
  word and enumeration value is ASCII, and the claims below are stated on
  ASCII-compatible inputs.
* `str.strip()` / `str.split()` use the Python whitespace set
  (space, tab, LF, CR, VT, FF); `str.splitlines()` is modelled as
  splitting on LF — theorems that feed text through it restrict the
  embedded field values to contain no line-break character, so the model
  and the source agree on every input a theorem talks about.
* `time.time()` is modelled by an explicit `now : Nat` argument threaded
  through the store operations; fractional timestamps do not change any
  comparison made by the code.
* The Redis backend of `ContextStore` delegates to an external library and
  is outside the model; the memory backend is embedded exactly.
* Exceptions are modelled by `Except DrixlError`; each constructor keeps
  the kind of the Python exception and the offending data.
-/

/-- Python whitespace characters, as used by `str.strip` and `str.split`. -/
def isPySpace (c : Char) : Bool :=
  c = ' ' || c = '\t' || c = '\n' || c = '\r' || c = '\x0b' || c = '\x0c'

/-- Characters at which Python `str.splitlines` breaks a line.  The model
splits lines on LF only; theorems about the parser restrict embedded values
to contain none of these, so the restriction is explicit. -/
def isLineBreak (c : Char) : Bool :=
  c = '\n' || c = '\r' || c = '\x0b' || c = '\x0c' ||
  c = '\x1c' || c = '\x1d' || c = '\x1e' || c = '\x85' ||
  c = '\u2028' || c = '\u2029'

/-- `str.upper()`, restricted to ASCII case mapping. -/
def strUpper (s : String) : String :=
  String.mk (s.data.map Char.toUpper)

/-- Drop leading Python whitespace (`str.lstrip()`). -/
def lstripChars (l : List Char) : List Char :=
  l.dropWhile isPySpace

/-- Drop trailing Python whitespace (`str.rstrip()`). -/
def rstripChars (l : List Char) : List Char :=
  (l.reverse.dropWhile isPySpace).reverse

/-- `str.strip()`. -/
def stripChars (l : List Char) : List Char :=
  rstripChars (lstripChars l)

/-- `text.startswith(t)` on character lists. -/
def startsWithCh (l t : List Char) : Bool :=
  t.isPrefixOf l

/-- Split a character list on a separator character; mirrors
`str.split(sep)`, which keeps empty pieces. -/
def splitOnChar (sep : Char) : List Char → List (List Char)
  | [] => [[]]
  | c :: cs =>
    let r := splitOnChar sep cs
    if c = sep then [] :: r
    else
      match r with
      | [] => [[c]]
      | h :: t => (c :: h) :: t

/-- `sep.join(pieces)` on character lists. -/
def joinSep (sep : List Char) : List (List Char) → List Char
  | [] => []
  | [x] => x
  | x :: y :: xs => x ++ sep ++ joinSep sep (y :: xs)

/-- `sep.join(strings)`. -/
def strJoin (sep : String) : List String → String
  | [] => ""
  | [x] => x
  | x :: y :: xs => x ++ sep ++ strJoin sep (y :: xs)

/-- `str.split()`: maximal runs of non-whitespace characters. -/
def splitWs : List Char → List (List Char)
  | [] => []
  | c :: cs =>
    if isPySpace c then splitWs cs
    else (c :: cs.takeWhile (fun x => !isPySpace x)) ::
      splitWs (cs.dropWhile (fun x => !isPySpace x))
termination_by l => l.length
decreasing_by
  · simp only [List.length_cons]
    exact Nat.lt_succ_of_le (Nat.le_refl _)
  · simp only [List.length_cons]
    exact Nat.lt_succ_of_le (List.dropWhile_sublist _).length_le

/-- The DRIXL verb vocabulary (`drixl/verbs.py`, `VERBS`); the claims only
consult membership, so descriptions are omitted. -/
def VERBS : List String :=
  ["ANLY", "XTRCT", "SUMM", "EXEC", "VALD", "ESCL", "ROUT", "STOR",
   "FETCH", "CMPX", "FLTR", "TRNSF", "NTFY", "RETRY", "HALT"]

/-- `drixl/message.py` `MESSAGE_TYPES`. -/
def MESSAGE_TYPES : List String := ["REQ", "RES", "ERR", "FIN"]

/-- `drixl/message.py` `PRIORITIES`. -/
def PRIORITIES : List String := ["HIGH", "MED", "LOW"]

/-- The exceptions raised by the embedded code: `DRIXLParseError`,
`DRIXLInvalidVerbError` (`drixl/exceptions.py`) and Python `ValueError`. -/
inductive DrixlError where
  | parseError (msg : String)
  | invalidVerb (msg : String)
  | valueError (msg : String)
deriving DecidableEq, Repr

/-! ## Context store (`drixl/context_store.py`, memory backend)

The two dictionaries `_store` and `_ttl_store` are association lists with
Python-dict update semantics (overwrite in place, append new keys). -/

/-- Dict lookup. -/
def alookup {α : Type} : List (String × α) → String → Option α
  | [], _ => none
  | (k', v) :: t, k => if k = k' then some v else alookup t k

/-- Dict assignment `d[k] = v`: overwrite in place or append. -/
def aset {α : Type} : List (String × α) → String → α → List (String × α)
  | [], k, v => [(k, v)]
  | (k', v') :: t, k, v =>
    if k = k' then (k, v) :: t else (k', v') :: aset t k v

/-- Dict `d.pop(k, None)`: drop the entry for `k`, if any. -/
def aerase {α : Type} : List (String × α) → String → List (String × α)
  | [], _ => []
  | (k', v') :: t, k => if k = k' then t else (k', v') :: aerase t k

/-- The memory-backend state of `ContextStore`: the value dict `_store`
and the expiry dict `_ttl_store` (absolute expiry instants). -/
structure ContextStore where
  store : List (String × String)
  ttl_store : List (String × Nat)
deriving DecidableEq, Repr

/-- `ContextStore.set` (memory backend).  Note the source guards the
expiry write with `if ttl:`, which is false for `None` and for `0`, and
never removes a pre-existing expiry entry. -/
def ContextStore.set (s : ContextStore) (now : Nat) (ref_id value : String)
    (ttl : Option Nat) : ContextStore :=
  { store := aset s.store ref_id value
    ttl_store :=
      match ttl with
      | some t => if t ≠ 0 then aset s.ttl_store ref_id (now + t) else s.ttl_store
      | none => s.ttl_store }

/-- `ContextStore.get` (memory backend): returns the value (or `None`) and
the store after the lazy eviction the call may perform. -/
def ContextStore.get (s : ContextStore) (now : Nat) (ref_id : String) :
    Option String × ContextStore :=
  match alookup s.ttl_store ref_id with
  | some expiry =>
    if now > expiry then
      (none, ⟨aerase s.store ref_id, aerase s.ttl_store ref_id⟩)
    else (alookup s.store ref_id, s)
  | none => (alookup s.store ref_id, s)

/-- `ContextStore.delete` (memory backend). -/
def ContextStore.delete (s : ContextStore) (ref_id : String) : ContextStore :=
  ⟨aerase s.store ref_id, aerase s.ttl_store ref_id⟩

/-- Iteration of `ContextStore.all_refs` over the snapshot of the keys of
`_store`, filtering out and lazily evicting expired entries. -/
def allRefsAux (now : Nat) : List String → ContextStore → List String × ContextStore
  | [], s => ([], s)
  | k :: ks, s =>
    match alookup s.ttl_store k with
    | some expiry =>
      if now ≤ expiry then
        let r := allRefsAux now ks s
        (k :: r.1, r.2)
      else
        allRefsAux now ks ⟨aerase s.store k, aerase s.ttl_store k⟩
    | none =>
      let r := allRefsAux now ks s
      (k :: r.1, r.2)

/-- Dict `d.keys()`, in insertion order. -/
def akeys {α : Type} : List (String × α) → List String
  | [] => []
  | (k, _) :: t => k :: akeys t

/-- `ContextStore.all_refs` (memory backend): the surviving keys and the
store after lazy eviction. -/
def ContextStore.all_refs (s : ContextStore) (now : Nat) :
    List String × ContextStore :=
  allRefsAux now (akeys s.store) s

/-- `ContextStore.clear` (memory backend). -/
def ContextStore.clear (_s : ContextStore) : ContextStore := ⟨[], []⟩

/-- A store state is well formed when each dict binds a key at most once;
every state reachable from an empty store is well formed. -/
def ContextStore.WF (s : ContextStore) : Prop :=
  (akeys s.store).Nodup ∧ (akeys s.ttl_store).Nodup

instance (s : ContextStore) : Decidable s.WF := by
  unfold ContextStore.WF
  infer_instance

/-! ## Compact codec (`drixl/message.py`)

`Message._build_compact` and `Message._parse_compact`.  The regular
expressions of the source are embedded as explicit scanners:
* `re.search(r"@tag:(\S+)", line)` is `searchTag`: the leftmost position
  where the tag is followed by at least one non-whitespace character wins,
  and the capture is the maximal non-whitespace run after the tag;
* `re.findall(r"\[([^\]]+)\]", body)` is `findParams`: leftmost
  non-overlapping bracketed runs of one or more non-`]` characters;
* `re.sub(r"\[[^\]]+\]", "", body)` is `removeParams`: the same matches,
  removed. -/

/-- `re.search(tag + r"(\S+)", text)`: capture of the leftmost match. -/
def searchTag (tag : List Char) : List Char → Option (List Char)
  | [] => none
  | c :: cs =>
    if tag.isPrefixOf (c :: cs) then
      let captured := ((c :: cs).drop tag.length).takeWhile (fun x => !isPySpace x)
      if captured.isEmpty then searchTag tag cs else some captured
    else searchTag tag cs

/-- `re.findall(r"\[([^\]]+)\]", body)`. -/
def findParams : List Char → List (List Char)
  | [] => []
  | c :: cs =>
    if c = '[' then
      match h : cs.drop (cs.takeWhile (fun x => x ≠ ']')).length with
      | ']' :: rest =>
        if (cs.takeWhile (fun x => x ≠ ']')).isEmpty then findParams cs
        else (cs.takeWhile (fun x => x ≠ ']')) :: findParams rest
      | _ => findParams cs
    else findParams cs
termination_by l => l.length
decreasing_by
  all_goals first
    | (simp only [List.length_cons]
       exact Nat.lt_succ_of_le (Nat.le_refl _))
    | (have h2 := congrArg List.length h
       simp only [List.length_cons] at h2
       have h1 : rest.length + 1 ≤ cs.length := by
         rw [← h2]
         simp [List.length_drop]
       simp only [List.length_cons]
       omega)

/-- `re.sub(r"\[[^\]]+\]", "", body)`. -/
def removeParams : List Char → List Char
  | [] => []
  | c :: cs =>
    if c = '[' then
      match h : cs.drop (cs.takeWhile (fun x => x ≠ ']')).length with
      | ']' :: rest =>
        if (cs.takeWhile (fun x => x ≠ ']')).isEmpty then c :: removeParams cs
        else removeParams rest
      | _ => c :: removeParams cs
    else c :: removeParams cs
termination_by l => l.length
decreasing_by
  all_goals first
    | (simp only [List.length_cons]
       exact Nat.lt_succ_of_le (Nat.le_refl _))
    | (have h2 := congrArg List.length h
       simp only [List.length_cons] at h2
       have h1 : rest.length + 1 ≤ cs.length := by
         rw [← h2]
         simp [List.length_drop]
       simp only [List.length_cons]
       omega)

/-- The dictionary returned by `Message._parse_compact`: the permissive
envelope (a missing tag is `None`, not an error), the action list and the
parameter list. -/
structure ParsedCompact where
  «to» : Option String
  fr : Option String
  type : Option String
  priority : Option String
  actions : List String
  params : List String
deriving DecidableEq, Repr

/-- The strict-mode action loop of `Message._parse_compact`: upper-case
known verbs are collected; the first unknown token raises
`DRIXLInvalidVerbError` naming the original token. -/
def strictActs : List (List Char) → Except DrixlError (List String)
  | [] => .ok []
  | t :: ts =>
    let u := String.mk (t.map Char.toUpper)
    if u ∈ VERBS then
      match strictActs ts with
      | .ok as => .ok (u :: as)
      | .error e => .error e
    else .error (.invalidVerb ("Unknown verb in message body: " ++ String.mk t))

/-- `Message._build_compact`. -/
def buildCompact («to» fr msg_type priority : String) (actions params : List String)
    (ctx_ref : Option String) : Except DrixlError String :=
  if strUpper msg_type ∉ MESSAGE_TYPES then
    .error (.valueError ("Invalid message type: " ++ msg_type))
  else if strUpper priority ∉ PRIORITIES then
    .error (.valueError ("Invalid priority: " ++ priority))
  else
    match actions.find? (fun v => decide (strUpper v ∉ VERBS)) with
    | some v => .error (.invalidVerb ("Unknown verb: " ++ v))
    | none =>
      let envelope := "@to:" ++ «to» ++ " @fr:" ++ fr ++ " @t:" ++ strUpper msg_type
        ++ " @p:" ++ strUpper priority
      let body0 := strJoin " " (actions.map strUpper)
      let body1 :=
        if params.isEmpty then body0
        else body0 ++ " " ++ strJoin " " (params.map (fun p => "[" ++ p ++ "]"))
      let body2 :=
        match ctx_ref with
        | some c => if c = "" then body1 else body1 ++ " [ctx:" ++ c ++ "]"
        | none => body1
      .ok (envelope ++ "\n" ++ body2)

/-- `Message._parse_compact`. -/
def parseCompact (raw : String) (strict : Bool) : Except DrixlError ParsedCompact :=
  let lines := splitOnChar '\n' (stripChars raw.data)
  match lines with
  | [] => .error (.parseError "Invalid DRIXL message: must have envelope and body lines.")
  | [_] => .error (.parseError "Invalid DRIXL message: must have envelope and body lines.")
  | envelope_line :: rest =>
    let body_line := joinSep [' '] rest
    let toV := (searchTag "@to:".data envelope_line).map String.mk
    let frV := (searchTag "@fr:".data envelope_line).map String.mk
    let tyV := (searchTag "@t:".data envelope_line).map String.mk
    let prV := (searchTag "@p:".data envelope_line).map String.mk
    let params := (findParams body_line).map String.mk
    let tokens := splitWs (stripChars (removeParams body_line))
    if strict then
      match strictActs tokens with
      | .ok actions => .ok ⟨toV, frV, tyV, prV, actions, params⟩
      | .error e => .error e
    else
      .ok ⟨toV, frV, tyV, prV,
        tokens.map (fun t => String.mk (t.map Char.toUpper)), params⟩

/-- `detect_format` (`drixl/converter.py`). -/
def detect_format (message : String) : Except DrixlError String :=
  let stripped := stripChars message.data
  if startsWithCh stripped "<message>".data || startsWithCh stripped "<?xml".data then
    .ok "structured"
  else if startsWithCh stripped "@to:".data then
    .ok "compact"
  else
    .error (.parseError
      "Unable to detect message format. Must start with '@to:' (compact) or '<message>' (XML)")

/-- `Message.parse`, as consumed by `compact_to_structured`: detect the
format, then parse.  On the structured branch the source returns
`StructuredMessage.from_xml(raw).to_dict()`, a dictionary without the
`"envelope"` key that `compact_to_structured` then reads — a `KeyError`;
that branch is modelled as the corresponding error value. -/
def messageParse (raw : String) (strict : Bool) : Except DrixlError ParsedCompact :=
  match detect_format raw with
  | .error e => .error e
  | .ok fmt =>
    if fmt = "structured" then .error (.parseError "KeyError: 'envelope'")
    else parseCompact raw strict

/-- A well-formed opaque token of the compact envelope, as the claims
restrict it: nonempty, without whitespace or line breaks (so the `\S+`
capture and the line structure are exact) and without `'@'` (so its text
cannot spoof a later envelope tag). -/
def WfTok (s : String) : Prop :=
  s.data ≠ [] ∧ ∀ c ∈ s.data, isPySpace c = false ∧ isLineBreak c = false ∧ c ≠ '@'

instance (s : String) : Decidable (WfTok s) := by
  unfold WfTok
  infer_instance

/-! ## Structured codec (`drixl/structured.py`)

The XML layer is embedded at the element-tree level: `to_xml` is modelled
as producing the element tree the source builds with `xml.etree`, and
`from_xml` as consuming one.  `ET.tostring`/`ET.fromstring` and the
pretty-printer are the inverse external serialization pair; pretty
printing only inserts whitespace text on elements that have child
elements, which `find`/`findtext`/`findall` never read (elements whose
only content is text are written inline and verbatim by `minidom`).
A `text` of `""` stands for Python `None`: `findtext` returns `""` for a
found element with no text, and `Artifact.from_xml` maps `None` to
`""`. -/

/-- An element of the tree: tag, attributes, text content, children. -/
inductive XmlNode where
  | elem (tag : String) (attrs : List (String × String)) (text : String)
      (children : List XmlNode)

def XmlNode.tag : XmlNode → String
  | .elem t _ _ _ => t

def XmlNode.attrs : XmlNode → List (String × String)
  | .elem _ a _ _ => a

def XmlNode.text : XmlNode → String
  | .elem _ _ t _ => t

def XmlNode.children : XmlNode → List XmlNode
  | .elem _ _ _ c => c

/-- `element.find(tag)`: first direct child with the tag. -/
def findChild (tag : String) (n : XmlNode) : Option XmlNode :=
  n.children.find? (fun c => c.tag == tag)

/-- `element.findtext(tag, default)`: text of the first matching direct
child (`""` for a text-less element), or the default when absent. -/
def findTextD (n : XmlNode) (tag : String) (d : String) : String :=
  match findChild tag n with
  | some c => c.text
  | none => d

/-- `element.get(name, default)`. -/
def attrD (n : XmlNode) (name d : String) : String :=
  match alookup n.attrs name with
  | some v => v
  | none => d

/-- `Artifact` (`drixl/structured.py`). -/
structure Artifact where
  type : String
  id : String
  content : String
deriving DecidableEq, Repr

/-- `Artifact.to_xml`. -/
def Artifact.toXml (a : Artifact) : XmlNode :=
  .elem "artifact" [("type", a.type), ("id", a.id)] a.content []

/-- `Artifact.from_xml`. -/
def Artifact.fromXml (e : XmlNode) : Artifact :=
  ⟨attrD e "type" "unknown", attrD e "id" "ART-UNKNOWN", e.text⟩

/-- `StructuredMessage` (`drixl/structured.py`): the fields after
`__init__` has normalized them. -/
structure StructuredMessage where
  msg_id : String
  thread_id : String
  reply_to : String
  timestamp : String
  priority : String
  «to» : String
  fr : String
  msg_type : String
  intent : String
  content : String
  status : String
  next_action : String
  artifacts : List Artifact
deriving DecidableEq, Repr

/-- `StructuredMessage.MESSAGE_TYPES`. -/
def S_MESSAGE_TYPES : List String :=
  ["REQUEST", "RESPONSE", "CRITIQUE", "DELEGATE", "ACK", "ESCALATE", "FINALIZE"]

/-- `StructuredMessage.PRIORITIES`. -/
def S_PRIORITIES : List String := ["LOW", "NORMAL", "HIGH", "BLOCKING"]

/-- `StructuredMessage.STATUSES`. -/
def S_STATUSES : List String :=
  ["PENDING", "IN_PROGRESS", "COMPLETE", "BLOCKED", "ESCALATED"]

/-- Python `x or default` for an optional string: `None` and `""` both
fall back. -/
def orDefault (o : Option String) (d : String) : String :=
  match o with
  | some s => if s = "" then d else s
  | none => d

/-- `StructuredMessage.__init__`: normalizes and validates.  The random
`uuid` fragments and the generated timestamp are passed explicitly as
`gen_msg_id`, `gen_thread_id`, `gen_timestamp`. -/
def mkStructuredMessage («to» fr msg_type intent content : String)
    (msg_id thread_id reply_to timestamp : Option String)
    (priority status : String) (next_action : Option String)
    (artifacts : List Artifact)
    (gen_msg_id gen_thread_id gen_timestamp : String) :
    Except DrixlError StructuredMessage :=
  let m : StructuredMessage :=
    { msg_id := orDefault msg_id gen_msg_id
      thread_id := orDefault thread_id gen_thread_id
      reply_to := orDefault reply_to "NULL"
      timestamp := orDefault timestamp gen_timestamp
      priority := strUpper priority
      «to» := «to»
      fr := fr
      msg_type := strUpper msg_type
      intent := intent
      content := content
      status := strUpper status
      next_action := orDefault next_action ""
      artifacts := artifacts }
  if m.msg_type ∉ S_MESSAGE_TYPES then
    .error (.valueError ("Invalid message type: " ++ m.msg_type))
  else if m.priority ∉ S_PRIORITIES then
    .error (.valueError ("Invalid priority: " ++ m.priority))
  else if m.status ∉ S_STATUSES then
    .error (.valueError ("Invalid status: " ++ m.status))
  else .ok m

/-- `StructuredMessage.to_xml`, at tree level. -/
def StructuredMessage.toXml (m : StructuredMessage) : XmlNode :=
  .elem "message" [] "" [
    .elem "meta" [] "" [
      .elem "msg_id" [] m.msg_id [],
      .elem "thread_id" [] m.thread_id [],
      .elem "reply_to" [] m.reply_to [],
      .elem "timestamp" [] m.timestamp [],
      .elem "priority" [] m.priority []],
    .elem "envelope" [] "" [
      .elem "to" [] m.to [],
      .elem "from" [] m.fr [],
      .elem "type" [] m.msg_type [],
      .elem "intent" [] m.intent []],
    .elem "content" [] m.content [],
    .elem "artifacts" [] "" (m.artifacts.map Artifact.toXml),
    .elem "status" [] m.status [],
    .elem "next_action" [] m.next_action []]

/-- `StructuredMessage.from_xml`, at tree level.  `cur_timestamp` stands
for `datetime.utcnow().isoformat()` evaluated for the missing-timestamp
default. -/
def StructuredMessage.fromXml (root : XmlNode)
    (gen_msg_id gen_thread_id gen_timestamp cur_timestamp : String) :
    Except DrixlError StructuredMessage :=
  if root.tag ≠ "message" then
    .error (.parseError ("Root element must be <message>, got <" ++ root.tag ++ ">"))
  else
    match findChild "meta" root with
    | none => .error (.parseError "Missing <meta> section")
    | some meta =>
      match findChild "envelope" root with
      | none => .error (.parseError "Missing <envelope> section")
      | some env =>
        let msg_id := findTextD meta "msg_id" "MSG-UNKNOWN"
        let thread_id := findTextD meta "thread_id" "THREAD-UNKNOWN"
        let reply_to := findTextD meta "reply_to" "NULL"
        let timestamp := findTextD meta "timestamp" cur_timestamp
        let priority := findTextD meta "priority" "NORMAL"
        let toV := findTextD env "to" "UNKNOWN"
        let frV := findTextD env "from" "UNKNOWN"
        let msg_type := findTextD env "type" "REQUEST"
        let intent := findTextD env "intent" ""
        let content := findTextD root "content" ""
        let status := findTextD root "status" "PENDING"
        let next_action := findTextD root "next_action" ""
        let artifacts :=
          match findChild "artifacts" root with
          | none => []
          | some ae => ((ae.children.filter (fun c => c.tag == "artifact")).map
              Artifact.fromXml)
        mkStructuredMessage toV frV msg_type intent content
          (some msg_id) (some thread_id) (some reply_to) (some timestamp)
          priority status (some next_action) artifacts
          gen_msg_id gen_thread_id gen_timestamp

/-- The validity guarantees `__init__` establishes for every constructed
`StructuredMessage`: enumeration fields in their closed sets and the
generated/defaulted identifier fields nonempty. -/
def StructuredMessage.Valid (m : StructuredMessage) : Prop :=
  m.msg_type ∈ S_MESSAGE_TYPES ∧ m.priority ∈ S_PRIORITIES ∧
  m.status ∈ S_STATUSES ∧ m.msg_id ≠ "" ∧ m.thread_id ≠ "" ∧
  m.reply_to ≠ "" ∧ m.timestamp ≠ ""

instance (m : StructuredMessage) : Decidable m.Valid := by
  unfold StructuredMessage.Valid
  infer_instance

/-! ## Format converter (`drixl/converter.py`) -/

/-- The compact-to-structured type table (`type_mapping.get(..., "REQUEST")`). -/
def ctsType (t : Option String) : String :=
  match t with
  | some "REQ" => "REQUEST"
  | some "RES" => "RESPONSE"
  | some "ERR" => "ESCALATE"
  | some "FIN" => "FINALIZE"
  | _ => "REQUEST"

/-- The compact-to-structured priority table (`priority_mapping.get(..., "NORMAL")`). -/
def ctsPrio (p : Option String) : String :=
  match p with
  | some "HIGH" => "HIGH"
  | some "MED" => "NORMAL"
  | some "LOW" => "LOW"
  | _ => "NORMAL"

/-- The structured-to-compact type table (`type_mapping.get(..., "REQ")`). -/
def sctType (t : String) : String :=
  match t with
  | "REQUEST" => "REQ"
  | "RESPONSE" => "RES"
  | "CRITIQUE" => "RES"
  | "DELEGATE" => "REQ"
  | "ACK" => "RES"
  | "ESCALATE" => "ERR"
  | "FINALIZE" => "FIN"
  | _ => "REQ"

/-- The structured-to-compact priority table (`priority_mapping.get(..., "MED")`). -/
def sctPrio (p : String) : String :=
  match p with
  | "HIGH" => "HIGH"
  | "NORMAL" => "MED"
  | "LOW" => "LOW"
  | "BLOCKING" => "HIGH"
  | _ => "MED"

/-- A parsed envelope field flowing into a `StructuredMessage` string
field; Python stores the `None` of a missing tag unchanged, which only
matters to fields no claim observes. -/
def optStr (o : Option String) : String :=
  match o with
  | some s => s
  | none => "None"

/-- `compact_to_structured` (`drixl/converter.py`). -/
def compact_to_structured (compact_msg : String)
    (thread_id msg_id intent : Option String) (status : String)
    (next_action : Option String)
    (gen_msg_id gen_thread_id gen_timestamp : String) :
    Except DrixlError StructuredMessage :=
  match messageParse compact_msg false with
  | .error e => .error e
  | .ok parsed =>
    let msg_type := ctsType parsed.type
    let intent' := orDefault intent
      ("Execute actions: " ++ strJoin ", " parsed.actions)
    let content :=
      if parsed.params.isEmpty then
        "Actions: " ++ strJoin ", " parsed.actions
      else
        ("Actions: " ++ strJoin ", " parsed.actions) ++ "\n"
          ++ "Parameters: " ++ strJoin ", " parsed.params
    let priority := ctsPrio parsed.priority
    mkStructuredMessage (optStr parsed.to) (optStr parsed.fr) msg_type intent'
      content msg_id thread_id none none priority status next_action []
      gen_msg_id gen_thread_id gen_timestamp

/-- `structured_to_compact` (`drixl/converter.py`): `if not actions:`
falls back to the single sentinel `["EXEC"]`; `if not params:` falls back
to `[]`; the result is `Message.build` on the mapped enumeration values. -/
def structured_to_compact (structured_msg : StructuredMessage)
    (actions : Option (List String)) (params : Option (List String)) :
    Except DrixlError String :=
  let msg_type := sctType structured_msg.msg_type
  let priority := sctPrio structured_msg.priority
  let actions' :=
    match actions with
    | some l => if l.isEmpty then ["EXEC"] else l
    | none => ["EXEC"]
  let params' :=
    match params with
    | some l => l
    | none => []
  buildCompact structured_msg.to structured_msg.fr msg_type priority
    actions' params' none

/-- The final line of a text: what follows the last newline. -/
def lastLine (s : String) : String :=
  String.mk ((splitOnChar '\n' s.data).getLastD [])

/-! ### Association-list lemmas -/

theorem alookup_aset_self {α : Type} (l : List (String × α)) (k : String) (v : α) :
    alookup (aset l k v) k = some v := by
  induction l with
  | nil => simp [aset, alookup]
  | cons p t ih =>
    obtain ⟨k', v'⟩ := p
    by_cases h : k = k'
    · simp [aset, alookup, h]
    · simp [aset, alookup, h, ih]

theorem alookup_aset_ne {α : Type} (l : List (String × α)) (k k' : String) (v : α)
    (h : k ≠ k') : alookup (aset l k' v) k = alookup l k := by
  induction l with
  | nil => simp [aset, alookup, h]
  | cons p t ih =>
    obtain ⟨k₀, v₀⟩ := p
    by_cases h0 : k' = k₀
    · subst h0
      simp [aset, alookup, h]
    · by_cases h1 : k = k₀ <;> simp [aset, alookup, h0, h1, ih]

theorem alookup_aerase_ne {α : Type} (l : List (String × α)) (k k' : String)
    (h : k ≠ k') : alookup (aerase l k') k = alookup l k := by
  induction l with
  | nil => simp [aerase]
  | cons p t ih =>
    obtain ⟨k₀, v₀⟩ := p
    by_cases h0 : k' = k₀
    · subst h0
      simp [aerase, alookup, h]
    · by_cases h1 : k = k₀ <;> simp [aerase, alookup, h0, h1, ih]

theorem mem_akeys_aset {α : Type} (l : List (String × α)) (k k' : String) (v : α)
    (h : k ∈ akeys (aset l k' v)) : k ∈ akeys l ∨ k = k' := by
  induction l with
  | nil =>
    simp [aset, akeys] at h
    exact Or.inr h
  | cons p t ih =>
    obtain ⟨k₀, v₀⟩ := p
    by_cases h0 : k' = k₀
    · subst h0
      simp [aset, akeys] at h
      rcases h with h | h
      · exact Or.inr h
      · exact Or.inl (by simp [akeys, h])
    · simp [aset, akeys, h0] at h
      rcases h with h | h
      · exact Or.inl (by simp [akeys, h])
      · rcases ih h with h' | h'
        · exact Or.inl (by simp [akeys, h'])
        · exact Or.inr h'

theorem nodup_akeys_aset {α : Type} (l : List (String × α)) (k : String) (v : α)
    (h : (akeys l).Nodup) : (akeys (aset l k v)).Nodup := by
  induction l with
  | nil => simp [aset, akeys]
  | cons p t ih =>
    obtain ⟨k₀, v₀⟩ := p
    simp only [akeys, List.nodup_cons] at h
    by_cases h0 : k = k₀
    · subst h0
      simpa [aset, akeys] using h
    · simp only [aset, h0, if_false, akeys, List.nodup_cons]
      refine ⟨?_, ih h.2⟩
      intro hmem
      rcases mem_akeys_aset t k₀ k v hmem with h' | h'
      · exact h.1 h'
      · exact h0 h'.symm

theorem alookup_aerase_self_of_nodup {α : Type} (l : List (String × α)) (k : String)
    (h : (akeys l).Nodup) : alookup (aerase l k) k = none := by
  induction l with
  | nil => simp [aerase, alookup]
  | cons p t ih =>
    obtain ⟨k₀, v₀⟩ := p
    simp only [akeys, List.nodup_cons] at h
    by_cases h0 : k = k₀
    · subst h0
      -- dropping the unique binding: `k` is not bound in the tail
      clear ih
      simp only [aerase, if_pos rfl]
      induction t with
      | nil => rfl
      | cons q t' ih' =>
        obtain ⟨k₁, v₁⟩ := q
        simp only [akeys, List.mem_cons, List.nodup_cons] at h
        have hne : k ≠ k₁ := fun he => h.1 (Or.inl he)
        simp only [alookup, hne, if_false]
        exact ih' ⟨fun hm => h.1 (Or.inr hm), h.2.2⟩
    · simp [aerase, alookup, h0, ih h.2]

theorem alookup_none_of_not_mem_akeys {α : Type} (l : List (String × α)) (k : String)
    (h : k ∉ akeys l) : alookup l k = none := by
  induction l with
  | nil => rfl
  | cons p t ih =>
    obtain ⟨k₀, v₀⟩ := p
    simp only [akeys, List.mem_cons] at h
    push_neg at h
    simp [alookup, h.1, ih h.2]

theorem mem_akeys_of_alookup {α : Type} (l : List (String × α)) (k : String) (v : α)
    (h : alookup l k = some v) : k ∈ akeys l := by
  induction l with
  | nil => simp [alookup] at h
  | cons p t ih =>
    obtain ⟨k₀, v₀⟩ := p
    by_cases h0 : k = k₀
    · simp [akeys, h0]
    · simp only [alookup, h0, if_false] at h
      simp [akeys, ih h]

theorem mem_akeys_aset_self {α : Type} (l : List (String × α)) (k : String) (v : α) :
    k ∈ akeys (aset l k v) := by
  induction l with
  | nil => simp [aset, akeys]
  | cons p t ih =>
    obtain ⟨k₀, v₀⟩ := p
    by_cases h0 : k = k₀
    · simp [aset, akeys, h0]
    · simp [aset, akeys, h0, ih]

theorem allRefsAux_subset (now : Nat) (ks : List String) (s : ContextStore)
    (k : String) (h : k ∈ (allRefsAux now ks s).1) : k ∈ ks := by
  induction ks generalizing s with
  | nil => simp [allRefsAux] at h
  | cons k' ks ih =>
    rcases hl : alookup s.ttl_store k' with _ | e
    · simp only [allRefsAux, hl, List.mem_cons] at h ⊢
      rcases h with h | h
      · exact Or.inl h
      · exact Or.inr (ih _ h)
    · by_cases hle : now ≤ e
      · simp only [allRefsAux, hl, if_pos hle, List.mem_cons] at h ⊢
        rcases h with h | h
        · exact Or.inl h
        · exact Or.inr (ih _ h)
      · simp only [allRefsAux, hl, if_neg hle] at h
        exact List.mem_cons_of_mem _ (ih _ h)

theorem allRefsAux_not_mem_expired (now : Nat) (k : String) (e : Nat)
    (ks : List String) (s : ContextStore) (hnd : ks.Nodup)
    (hl : alookup s.ttl_store k = some e) (hex : e < now) :
    k ∉ (allRefsAux now ks s).1 := by
  induction ks generalizing s with
  | nil => simp [allRefsAux]
  | cons k' ks ih =>
    simp only [List.nodup_cons] at hnd
    by_cases hk : k' = k
    · subst hk
      simp only [allRefsAux, hl, if_neg (Nat.not_le.mpr hex)]
      intro hmem
      exact hnd.1 (allRefsAux_subset now ks _ k' hmem)
    · rcases hl' : alookup s.ttl_store k' with _ | e'
      · simp only [allRefsAux, hl', List.mem_cons]
        push_neg
        exact ⟨fun hkk => hk hkk.symm, ih _ hnd.2 hl⟩
      · by_cases hle : now ≤ e'
        · simp only [allRefsAux, hl', if_pos hle, List.mem_cons]
          push_neg
          exact ⟨fun hkk => hk hkk.symm, ih _ hnd.2 hl⟩
        · simp only [allRefsAux, hl', if_neg hle]
          refine ih _ hnd.2 ?_
          show alookup (aerase s.ttl_store k') k = some e
          rw [alookup_aerase_ne _ _ _ (fun hkk => hk hkk.symm)]
          exact hl

theorem allRefsAux_mem_live (now : Nat) (k : String)
    (ks : List String) (s : ContextStore) (hmem : k ∈ ks)
    (hl : ∀ e, alookup s.ttl_store k = some e → now ≤ e) :
    k ∈ (allRefsAux now ks s).1 := by
  induction ks generalizing s with
  | nil => simp at hmem
  | cons k' ks ih =>
    by_cases hk : k' = k
    · subst hk
      rcases hlk : alookup s.ttl_store k' with _ | e
      · simp [allRefsAux, hlk]
      · simp [allRefsAux, hlk, if_pos (hl e hlk)]
    · simp only [List.mem_cons] at hmem
      rcases hmem with hmem | hmem
      · exact absurd hmem.symm hk
      · rcases hl' : alookup s.ttl_store k' with _ | e'
        · simp only [allRefsAux, hl', List.mem_cons]
          exact Or.inr (ih _ hmem hl)
        · by_cases hle : now ≤ e'
          · simp only [allRefsAux, hl', if_pos hle, List.mem_cons]
            exact Or.inr (ih _ hmem hl)
          · simp only [allRefsAux, hl', if_neg hle]
            refine ih _ hmem ?_
            intro e he
            apply hl
            rw [show alookup (aerase s.ttl_store k') k = alookup s.ttl_store k
                from alookup_aerase_ne _ _ _ (fun hkk => hk hkk.symm)] at he
            exact he

theorem wf_set (s : ContextStore) (now : Nat) (k v : String) (ttl : Option Nat)
    (h : s.WF) : (s.set now k v ttl).WF := by
  obtain ⟨h1, h2⟩ := h
  refine ⟨nodup_akeys_aset _ _ _ h1, ?_⟩
  rcases ttl with _ | t
  · exact h2
  · simp only [ContextStore.set]
    split
    · exact nodup_akeys_aset _ _ _ h2
    · exact h2

/-- C1 counterexample: `set("k", "v1", ttl=1)` at time 0 followed by
`set("k", "v2")` with no ttl, read at time 2.  The claim asserts the entry
never expires and `get` returns `"v2"`; the code keeps the old expiry (the
`if ttl:` guard skips the expiry write but does not clear the stale one), so
the read at time 2 expires the entry and returns `None`. -/
theorem c1_counterexample :
    (((((⟨[], []⟩ : ContextStore).set 0 "k" "v1" (some 1)).set 0 "k" "v2"
        none).get 2 "k").1 = none) ∧
    ("k" ∉ (((((⟨[], []⟩ : ContextStore).set 0 "k" "v1" (some 1)).set 0 "k" "v2"
        none)).all_refs 2).1) := by
  constructor
  · rfl
  · decide

/-- C1 (amended): overwriting a ttl-carrying entry with a no-ttl `set`
replaces the value but keeps the earlier expiry instant: reads up to the
old expiry see the new value and the key stays enumerated; reads strictly
after it find the entry expired, evicted and absent from the enumeration. -/
theorem c1_set_no_ttl_keeps_expiry (s s2 : ContextStore) (t0 T t : Nat)
    (k v1 v2 : String) (hWF : s.WF) (hT : 0 < T)
    (hs2 : s2 = (s.set t0 k v1 (some T)).set t0 k v2 none) :
    (t ≤ t0 + T → (s2.get t k).1 = some v2 ∧ k ∈ (s2.all_refs t).1) ∧
    (t0 + T < t → (s2.get t k).1 = none ∧ k ∉ (s2.all_refs t).1) := by
  have hT' : T ≠ 0 := Nat.pos_iff_ne_zero.mp hT
  have httl : s2.ttl_store = aset s.ttl_store k (t0 + T) := by
    subst hs2
    simp [ContextStore.set, hT']
  have hstore : s2.store = aset (aset s.store k v1) k v2 := by
    subst hs2
    simp [ContextStore.set]
  have hlt : alookup s2.ttl_store k = some (t0 + T) := by
    rw [httl]
    exact alookup_aset_self _ _ _
  have hls : alookup s2.store k = some v2 := by
    rw [hstore]
    exact alookup_aset_self _ _ _
  have hnd : (akeys s2.store).Nodup := by
    rw [hstore]
    exact nodup_akeys_aset _ _ _ (nodup_akeys_aset _ _ _ hWF.1)
  constructor
  · intro hle
    constructor
    · simp only [ContextStore.get, hlt, if_neg (Nat.not_lt.mpr hle)]
      exact hls
    · refine allRefsAux_mem_live t k _ s2 ?_ ?_
      · rw [hstore]
        exact mem_akeys_aset_self _ _ _
      · intro e he
        rw [hlt] at he
        injection he with he
        omega
  · intro hgt
    constructor
    · simp [ContextStore.get, hlt, Nat.lt_of_le_of_lt (Nat.le_refl _) hgt, hgt]
    · exact allRefsAux_not_mem_expired t k (t0 + T) _ s2 hnd hlt hgt

theorem c1_witness :
    ((6 ≤ 0 + 5 →
      (((((⟨[], []⟩ : ContextStore).set 0 "k" "v1" (some 5)).set 0 "k" "v2"
          none)).get 6 "k").1 = some "v2" ∧
      "k" ∈ (((((⟨[], []⟩ : ContextStore).set 0 "k" "v1" (some 5)).set 0 "k" "v2"
          none)).all_refs 6).1) ∧
    (0 + 5 < 6 →
      (((((⟨[], []⟩ : ContextStore).set 0 "k" "v1" (some 5)).set 0 "k" "v2"
          none)).get 6 "k").1 = none ∧
      "k" ∉ (((((⟨[], []⟩ : ContextStore).set 0 "k" "v1" (some 5)).set 0 "k" "v2"
          none)).all_refs 6).1)) :=
  c1_set_no_ttl_keeps_expiry ⟨[], []⟩ _ 0 5 6 "k" "v1" "v2" (by decide)
    (by decide) rfl

/-- C3 counterexample: `set("k", "v", ttl=1)` at time 0, read at time 1.
Real elapsed time equals the ttl, so the claim asserts the read is absent;
the code tests `time.time() > expiry` (strict), so the value is still
returned at the expiry instant itself. -/
theorem c3_counterexample :
    ((((⟨[], []⟩ : ContextStore).set 0 "k" "v" (some 1)).get 1 "k").1
      = some "v") ∧
    ("k" ∈ ((((⟨[], []⟩ : ContextStore).set 0 "k" "v" (some 1))).all_refs 1).1) := by
  constructor
  · rfl
  · decide

/-- C3 (amended): for a positive ttl `T` (the source treats `ttl=0` as no
ttl), a `get` at or before the expiry instant returns the value and the key
is enumerated; a `get` strictly after the expiry instant returns absent and
evicts the entry from both dicts, and the enumeration omits the key.  An
entry set with no ttl on a key with no pending expiry is returned at every
later time, and `clear()` empties the enumeration unconditionally. -/
theorem c3_ttl_lifecycle (s s1 : ContextStore) (t0 T t : Nat) (k v : String)
    (hWF : s.WF) (hT : 0 < T) (hs1 : s1 = s.set t0 k v (some T)) :
    (t ≤ t0 + T → (s1.get t k).1 = some v ∧ k ∈ (s1.all_refs t).1) ∧
    (t0 + T < t →
      (s1.get t k).1 = none ∧
      alookup (s1.get t k).2.store k = none ∧
      alookup (s1.get t k).2.ttl_store k = none ∧
      k ∉ (s1.all_refs t).1) ∧
    (alookup s.ttl_store k = none →
      ∀ t', ((s.set t0 k v none).get t' k).1 = some v) ∧
    ((s.clear.all_refs t).1 = []) := by
  have hT' : T ≠ 0 := Nat.pos_iff_ne_zero.mp hT
  have httl : s1.ttl_store = aset s.ttl_store k (t0 + T) := by
    subst hs1
    simp [ContextStore.set, hT']
  have hstore : s1.store = aset s.store k v := by
    subst hs1
    simp [ContextStore.set]
  have hlt : alookup s1.ttl_store k = some (t0 + T) := by
    rw [httl]
    exact alookup_aset_self _ _ _
  have hls : alookup s1.store k = some v := by
    rw [hstore]
    exact alookup_aset_self _ _ _
  have hnds : (akeys s1.store).Nodup := by
    rw [hstore]
    exact nodup_akeys_aset _ _ _ hWF.1
  have hndt : (akeys s1.ttl_store).Nodup := by
    rw [httl]
    exact nodup_akeys_aset _ _ _ hWF.2
  refine ⟨?_, ?_, ?_, ?_⟩
  · intro hle
    constructor
    · simp only [ContextStore.get, hlt, if_neg (Nat.not_lt.mpr hle)]
      exact hls
    · refine allRefsAux_mem_live t k _ s1 ?_ ?_
      · rw [hstore]
        exact mem_akeys_aset_self _ _ _
      · intro e he
        rw [hlt] at he
        injection he with he
        omega
  · intro hgt
    have hget : s1.get t k =
        (none, ⟨aerase s1.store k, aerase s1.ttl_store k⟩) := by
      simp [ContextStore.get, hlt, hgt]
    refine ⟨?_, ?_, ?_, ?_⟩
    · rw [hget]
    · rw [hget]
      exact alookup_aerase_self_of_nodup _ _ hnds
    · rw [hget]
      exact alookup_aerase_self_of_nodup _ _ hndt
    · exact allRefsAux_not_mem_expired t k (t0 + T) _ s1 hnds hlt hgt
  · intro hnone t'
    have : (s.set t0 k v none).ttl_store = s.ttl_store := rfl
    simp only [ContextStore.get, this, hnone]
    show alookup (aset s.store k v) k = some v
    exact alookup_aset_self _ _ _
  · rfl

theorem c3_witness :
    ((3 ≤ 0 + 2 →
      ((((⟨[], []⟩ : ContextStore).set 0 "k" "v" (some 2))).get 3 "k").1 = some "v" ∧
      "k" ∈ ((((⟨[], []⟩ : ContextStore).set 0 "k" "v" (some 2))).all_refs 3).1) ∧
    (0 + 2 < 3 →
      ((((⟨[], []⟩ : ContextStore).set 0 "k" "v" (some 2))).get 3 "k").1 = none ∧
      alookup ((((⟨[], []⟩ : ContextStore).set 0 "k" "v" (some 2))).get 3 "k").2.store "k" = none ∧
      alookup ((((⟨[], []⟩ : ContextStore).set 0 "k" "v" (some 2))).get 3 "k").2.ttl_store "k" = none ∧
      "k" ∉ ((((⟨[], []⟩ : ContextStore).set 0 "k" "v" (some 2))).all_refs 3).1) ∧
    (alookup (⟨[], []⟩ : ContextStore).ttl_store "k" = none →
      ∀ t', (((⟨[], []⟩ : ContextStore).set 0 "k" "v" none).get t' "k").1 = some "v") ∧
    (((⟨[], []⟩ : ContextStore).clear.all_refs 3).1 = [])) :=
  c3_ttl_lifecycle ⟨[], []⟩ _ 0 2 3 "k" "v" (by decide) (by decide) rfl

/-- C5: the concrete build scenario of the specification produces exactly
the documented two-line compact text. -/
theorem c5_concrete_build :
    buildCompact "AGT2" "AGT1" "REQ" "HIGH" ["ANLY", "XTRCT"]
      ["firewall.log", "denied_ips", "out:json"] (some "ref#1")
    = .ok "@to:AGT2 @fr:AGT1 @t:REQ @p:HIGH\nANLY XTRCT [firewall.log] [denied_ips] [out:json] [ctx:ref#1]" := by
  rfl

/-! ## List-scanning toolkit for the codec proofs -/

theorem takeWhileApp {α : Type} (p : α → Bool) (a b : List α) :
    (a ++ b).takeWhile p =
      if (a.dropWhile p).isEmpty then a ++ b.takeWhile p else a.takeWhile p := by
  induction a with
  | nil => simp
  | cons c a ih =>
    by_cases h : p c
    · simp only [List.cons_append, List.takeWhile_cons, List.dropWhile_cons, h,
        if_true, ih]
      by_cases h2 : (a.dropWhile p).isEmpty <;> simp [h2]
    · simp [List.takeWhile_cons, List.dropWhile_cons, h]

theorem dropWhileApp {α : Type} (p : α → Bool) (a b : List α) :
    (a ++ b).dropWhile p =
      if (a.dropWhile p).isEmpty then b.dropWhile p else a.dropWhile p ++ b := by
  induction a with
  | nil => simp
  | cons c a ih =>
    by_cases h : p c
    · simp only [List.cons_append, List.dropWhile_cons, h, if_true, ih]
    · simp [List.dropWhile_cons, h]

theorem dropWhileAll {α : Type} (p : α → Bool) (l : List α)
    (h : ∀ c ∈ l, p c = true) : l.dropWhile p = [] := by
  induction l with
  | nil => rfl
  | cons c t ih =>
    simp only [List.dropWhile_cons, h c (by simp), if_true]
    exact ih fun x hx => h x (by simp [hx])

theorem takeWhileAll {α : Type} (p : α → Bool) (l : List α)
    (h : ∀ c ∈ l, p c = true) : l.takeWhile p = l := by
  induction l with
  | nil => rfl
  | cons c t ih =>
    simp only [List.takeWhile_cons, h c (by simp), if_true]
    rw [ih fun x hx => h x (by simp [hx])]

theorem splitOnCharNeNil (sep : Char) (l : List Char) : splitOnChar sep l ≠ [] := by
  induction l with
  | nil => simp [splitOnChar]
  | cons c cs ih =>
    simp only [splitOnChar]
    by_cases h : c = sep
    · simp [h]
    · simp only [h, if_false]
      rcases hs : splitOnChar sep cs with _ | ⟨x, xs⟩
      · exact absurd hs ih
      · simp

theorem splitOnCharApp (sep : Char) (a b : List Char) :
    splitOnChar sep (a ++ sep :: b) = splitOnChar sep a ++ splitOnChar sep b := by
  induction a with
  | nil => simp [splitOnChar]
  | cons c a ih =>
    by_cases h : c = sep
    · simp [splitOnChar, h, ih]
    · simp only [List.cons_append, splitOnChar, h, if_false, ih]
      rcases hs : splitOnChar sep a with _ | ⟨x, xs⟩
      · exact absurd hs (splitOnCharNeNil sep a)
      · simp only [List.append_eq]
        rw [ih, hs]
        rfl

theorem splitOnCharNoSep (sep : Char) (l : List Char) (h : ∀ c ∈ l, c ≠ sep) :
    splitOnChar sep l = [l] := by
  induction l with
  | nil => rfl
  | cons c cs ih =>
    simp only [splitOnChar, h c (by simp), if_false]
    rw [ih fun x hx => h x (by simp [hx])]

theorem getLastDApp {α : Type} (l : List α) (x d : α) :
    (l ++ [x]).getLastD d = x := by
  induction l generalizing d with
  | nil => rfl
  | cons c cs ih =>
    rw [List.cons_append, List.getLastD_cons]
    exact ih c

theorem isPrefixOfAppSelf (t x : List Char) : t.isPrefixOf (t ++ x) = true := by
  induction t with
  | nil => simp [List.isPrefixOf]
  | cons c cs ih => simp [List.isPrefixOf, ih]

theorem strJoinData (sep : String) (l : List String) :
    (strJoin sep l).data = joinSep sep.data (l.map String.data) := by
  induction l with
  | nil => rfl
  | cons x xs ih =>
    rcases xs with _ | ⟨y, ys⟩
    · rfl
    · simp only [strJoin, joinSep, List.map_cons, String.data_append, ih]

theorem searchTagHere (tag v rest : List Char)
    (hcap : (v ++ rest).takeWhile (fun x => !isPySpace x) = v) (hv : v ≠ []) :
    searchTag tag (tag ++ (v ++ rest)) = some v := by
  cases tag with
  | nil =>
    rcases hv' : v with _ | ⟨c, cs⟩
    · exact absurd hv' hv
    · subst hv'
      simp only [List.nil_append, searchTag, List.isPrefixOf,
        List.length_nil, List.drop_zero, List.append_eq, if_true]
      rw [List.cons_append] at hcap
      rw [hcap]
      simp [List.isEmpty_iff]
  | cons a t =>
    have hshape : (a :: t) ++ (v ++ rest) = a :: (t ++ (v ++ rest)) := rfl
    rw [hshape]
    simp only [searchTag]
    rw [show (a :: (t ++ (v ++ rest))) = (a :: t) ++ (v ++ rest) from rfl,
      isPrefixOfAppSelf]
    simp only [if_true]
    rw [show ((a :: t) ++ (v ++ rest)).drop (a :: t).length = v ++ rest from
      List.drop_left _ _]
    rw [hcap]
    simp [List.isEmpty_iff, hv]

theorem searchTagSkipHead (tag : List Char) (c : Char) (cs : List Char)
    (h : tag.isPrefixOf (c :: cs) = false) :
    searchTag tag (c :: cs) = searchTag tag cs := by
  simp [searchTag, h]

theorem searchTagSkipChunk (a : Char) (t l rest : List Char)
    (hl : ∀ c ∈ l, c ≠ a) :
    searchTag (a :: t) (l ++ rest) = searchTag (a :: t) rest := by
  induction l with
  | nil => rfl
  | cons c cl ih =>
    have hca : (a == c) = false :=
      beq_eq_false_iff_ne.mpr (fun he => (hl c (by simp)) he.symm)
    have hp : (a :: t).isPrefixOf (c :: (cl ++ rest)) = false := by
      simp [List.isPrefixOf, hca]
    rw [List.cons_append, searchTagSkipHead _ _ _ hp]
    exact ih fun x hx => hl x (by simp [hx])

theorem lstripOfHead (c : Char) (l : List Char) (h : isPySpace c = false) :
    lstripChars (c :: l) = c :: l := by
  simp [lstripChars, List.dropWhile_cons, h]

theorem rstripConcat (x : List Char) (c : Char) (h : isPySpace c = false) :
    rstripChars (x ++ [c]) = x ++ [c] := by
  simp [rstripChars, List.reverse_append, List.dropWhile_cons, h]

theorem rstripAppSpaces (x sp : List Char) (h : ∀ c ∈ sp, isPySpace c = true) :
    rstripChars (x ++ sp) = rstripChars x := by
  simp only [rstripChars, List.reverse_append]
  rw [dropWhileApp]
  rw [dropWhileAll isPySpace sp.reverse (fun c hc => h c (by simpa using hc))]
  simp

theorem stripSandwich (a : Char) (m : List Char) (b : Char)
    (ha : isPySpace a = false) (hb : isPySpace b = false) :
    stripChars (a :: (m ++ [b])) = a :: (m ++ [b]) := by
  unfold stripChars
  rw [show lstripChars (a :: (m ++ [b])) = a :: (m ++ [b]) from lstripOfHead _ _ ha]
  exact rstripConcat (a :: m) b hb

theorem verbsUpperId : ∀ v ∈ VERBS, strUpper v = v := by decide

theorem verbsChars : ∀ v ∈ VERBS, v.data ≠ [] ∧ ∀ c ∈ v.data,
    isPySpace c = false ∧ isLineBreak c = false ∧ c ≠ '[' ∧ c ≠ ']' ∧ c ≠ '@' := by
  decide

theorem typesFacts : ∀ v ∈ MESSAGE_TYPES, strUpper v = v ∧ v.data ≠ [] ∧
    ∀ c ∈ v.data, isPySpace c = false ∧ isLineBreak c = false ∧ c ≠ '@' := by
  decide

theorem priosFacts : ∀ v ∈ PRIORITIES, strUpper v = v ∧ v.data ≠ [] ∧
    ∀ c ∈ v.data, isPySpace c = false ∧ isLineBreak c = false ∧ c ≠ '@' := by
  decide


theorem findParamsNil : findParams [] = [] := by
  simp [findParams]

theorem removeParamsNil : removeParams [] = [] := by
  simp [removeParams]

theorem findParamsSkip (l rest : List Char) (h : ∀ c ∈ l, c ≠ '[') :
    findParams (l ++ rest) = findParams rest := by
  induction l with
  | nil => rfl
  | cons c cl ih =>
    rw [List.cons_append]
    rw [show findParams (c :: (cl ++ rest)) = findParams (cl ++ rest) by
      simp [findParams, h c (by simp)]]
    exact ih fun x hx => h x (by simp [hx])

theorem removeParamsSkip (l rest : List Char) (h : ∀ c ∈ l, c ≠ '[') :
    removeParams (l ++ rest) = l ++ removeParams rest := by
  induction l with
  | nil => rfl
  | cons c cl ih =>
    rw [List.cons_append]
    rw [show removeParams (c :: (cl ++ rest)) = c :: removeParams (cl ++ rest) by
      simp [removeParams, h c (by simp)]]
    rw [ih fun x hx => h x (by simp [hx])]
    rfl

theorem findParamsCons (p tail : List Char) (hp : p ≠ [])
    (hnb : ∀ c ∈ p, c ≠ ']') :
    findParams ('[' :: (p ++ ']' :: tail)) = p :: findParams tail := by
  have htw : (p ++ ']' :: tail).takeWhile (fun x => x ≠ ']') = p := by
    rw [takeWhileApp]
    rw [dropWhileAll _ p (fun c hc => by simpa using hnb c hc)]
    simp [List.takeWhile_cons]
  have hdr : (p ++ ']' :: tail).drop
      ((p ++ ']' :: tail).takeWhile (fun x => x ≠ ']')).length = ']' :: tail := by
    rw [htw]
    exact List.drop_left _ _
  simp only [findParams, if_true]
  split
  · rename_i rest heq
    rw [hdr] at heq
    injection heq with h1 h2
    subst h2
    rw [htw]
    simp [List.isEmpty_iff, hp]
  · rename_i hne
    exact absurd hdr (hne tail)

theorem removeParamsCons (p tail : List Char) (hp : p ≠ [])
    (hnb : ∀ c ∈ p, c ≠ ']') :
    removeParams ('[' :: (p ++ ']' :: tail)) = removeParams tail := by
  have htw : (p ++ ']' :: tail).takeWhile (fun x => x ≠ ']') = p := by
    rw [takeWhileApp]
    rw [dropWhileAll _ p (fun c hc => by simpa using hnb c hc)]
    simp [List.takeWhile_cons]
  have hdr : (p ++ ']' :: tail).drop
      ((p ++ ']' :: tail).takeWhile (fun x => x ≠ ']')).length = ']' :: tail := by
    rw [htw]
    exact List.drop_left _ _
  simp only [removeParams, if_true]
  split
  · rename_i rest heq
    rw [hdr] at heq
    injection heq with h1 h2
    subst h2
    rw [htw]
    simp [List.isEmpty_iff, hp]
  · rename_i hne
    exact absurd hdr (hne tail)

theorem findParamsJoin (ps : List (List Char))
    (h : ∀ p ∈ ps, p ≠ [] ∧ ∀ c ∈ p, c ≠ ']') :
    findParams (joinSep [' '] (ps.map (fun p => '[' :: (p ++ [']'])))) = ps := by
  induction ps with
  | nil => exact findParamsNil
  | cons p rest ih =>
    obtain ⟨hp, hnb⟩ := h p (by simp)
    rcases rest with _ | ⟨q, qs⟩
    · have hj : joinSep [' '] ([p].map (fun p => '[' :: (p ++ [']'])))
          = '[' :: (p ++ ']' :: []) := by
        simp [joinSep]
      rw [hj, findParamsCons p [] hp hnb, findParamsNil]
    · have hj : joinSep [' '] ((p :: q :: qs).map (fun p => '[' :: (p ++ [']'])))
          = '[' :: (p ++ ']' :: (' ' ::
            joinSep [' '] ((q :: qs).map (fun p => '[' :: (p ++ [']']))))) := by
        simp [joinSep]
      rw [hj, findParamsCons p _ hp hnb]
      rw [show (' ' :: joinSep [' '] ((q :: qs).map (fun p => '[' :: (p ++ [']']))))
          = [' '] ++ joinSep [' '] ((q :: qs).map (fun p => '[' :: (p ++ [']'])))
        from rfl]
      rw [findParamsSkip [' '] _ (by decide)]
      rw [ih fun x hx => h x (by simp [hx])]

theorem removeParamsJoin (ps : List (List Char))
    (h : ∀ p ∈ ps, p ≠ [] ∧ ∀ c ∈ p, c ≠ ']') :
    removeParams (joinSep [' '] (ps.map (fun p => '[' :: (p ++ [']']))))
      = List.replicate (ps.length - 1) ' ' := by
  induction ps with
  | nil => exact removeParamsNil
  | cons p rest ih =>
    obtain ⟨hp, hnb⟩ := h p (by simp)
    rcases rest with _ | ⟨q, qs⟩
    · have hj : joinSep [' '] ([p].map (fun p => '[' :: (p ++ [']'])))
          = '[' :: (p ++ ']' :: []) := by
        simp [joinSep]
      rw [hj, removeParamsCons p [] hp hnb, removeParamsNil]
      rfl
    · have hj : joinSep [' '] ((p :: q :: qs).map (fun p => '[' :: (p ++ [']'])))
          = '[' :: (p ++ ']' :: (' ' ::
            joinSep [' '] ((q :: qs).map (fun p => '[' :: (p ++ [']']))))) := by
        simp [joinSep]
      rw [hj, removeParamsCons p _ hp hnb]
      rw [show (' ' :: joinSep [' '] ((q :: qs).map (fun p => '[' :: (p ++ [']']))))
          = [' '] ++ joinSep [' '] ((q :: qs).map (fun p => '[' :: (p ++ [']'])))
        from rfl]
      rw [removeParamsSkip [' '] _ (by decide)]
      rw [ih fun x hx => h x (by simp [hx])]
      simp [List.replicate_succ]

theorem splitWsNil : splitWs [] = [] := by
  simp [splitWs]

theorem splitWsSpaceHead (c : Char) (l : List Char) (h : isPySpace c = true) :
    splitWs (c :: l) = splitWs l := by
  simp [splitWs, h]

theorem splitWsWordEnd (w : List Char) (hw : w ≠ [])
    (hws : ∀ c ∈ w, isPySpace c = false) : splitWs w = [w] := by
  rcases w with _ | ⟨c, wt⟩
  · exact absurd rfl hw
  · rw [show splitWs (c :: wt)
        = (c :: wt.takeWhile (fun x => !isPySpace x))
          :: splitWs (wt.dropWhile (fun x => !isPySpace x)) by
      simp [splitWs, hws c (by simp)]]
    rw [takeWhileAll _ wt (fun x hx => by simp [hws x (by simp [hx])])]
    rw [dropWhileAll _ wt (fun x hx => by simp [hws x (by simp [hx])])]
    rw [splitWsNil]

theorem splitWsWordSpace (w rest : List Char) (hw : w ≠ [])
    (hws : ∀ c ∈ w, isPySpace c = false) :
    splitWs (w ++ ' ' :: rest) = w :: splitWs rest := by
  rcases w with _ | ⟨c, wt⟩
  · exact absurd rfl hw
  · rw [List.cons_append]
    rw [show splitWs (c :: (wt ++ ' ' :: rest))
        = (c :: (wt ++ ' ' :: rest).takeWhile (fun x => !isPySpace x))
          :: splitWs ((wt ++ ' ' :: rest).dropWhile (fun x => !isPySpace x)) by
      simp [splitWs, hws c (by simp)]]
    rw [takeWhileApp, dropWhileApp]
    rw [dropWhileAll _ wt (fun x hx => by simp [hws x (by simp [hx])])]
    simp only [List.isEmpty_nil, if_true]
    rw [show (' ' :: rest).takeWhile (fun x => !isPySpace x) = [] by
      simp [List.takeWhile_cons, isPySpace]]
    rw [show (' ' :: rest).dropWhile (fun x => !isPySpace x) = ' ' :: rest by
      simp [List.dropWhile_cons, isPySpace]]
    rw [splitWsSpaceHead ' ' rest (by simp [isPySpace])]
    simp

theorem splitWsAllSpaces (l : List Char) (h : ∀ c ∈ l, isPySpace c = true) :
    splitWs l = [] := by
  induction l with
  | nil => exact splitWsNil
  | cons c cl ih =>
    rw [splitWsSpaceHead c cl (h c (by simp))]
    exact ih fun x hx => h x (by simp [hx])

theorem splitWsJoin (ws : List (List Char))
    (h : ∀ w ∈ ws, w ≠ [] ∧ ∀ c ∈ w, isPySpace c = false) :
    splitWs (joinSep [' '] ws) = ws := by
  induction ws with
  | nil => exact splitWsNil
  | cons w rest ih =>
    obtain ⟨hw, hws⟩ := h w (by simp)
    rcases rest with _ | ⟨v, vs⟩
    · exact splitWsWordEnd w hw hws
    · have hj : joinSep [' '] (w :: v :: vs) = w ++ ' ' :: joinSep [' '] (v :: vs) := by
        simp [joinSep]
      rw [hj, splitWsWordSpace w _ hw hws]
      rw [ih fun x hx => h x (by simp [hx])]

theorem joinSepConsCons (w v : List Char) (vs : List (List Char)) :
    joinSep [' '] (w :: v :: vs) = w ++ ' ' :: joinSep [' '] (v :: vs) := by
  simp [joinSep]

theorem joinSepHeadChar (w : List Char) (rest : List (List Char)) (a : Char)
    (wt : List Char) (hw : w = a :: wt) :
    ∃ m, joinSep [' '] (w :: rest) = a :: m := by
  rcases rest with _ | ⟨v, vs⟩
  · exact ⟨wt, by simp [joinSep, hw]⟩
  · exact ⟨wt ++ ' ' :: joinSep [' '] (v :: vs),
      by rw [joinSepConsCons, hw]; rfl⟩

theorem joinSepLastChar (ws : List (List Char)) (hne : ws ≠ [])
    (h : ∀ w ∈ ws, w ≠ []) :
    ∃ i b, joinSep [' '] ws = i ++ [b] ∧ ∃ w ∈ ws, b ∈ w := by
  induction ws with
  | nil => exact absurd rfl hne
  | cons w rest ih =>
    rcases rest with _ | ⟨v, vs⟩
    · rcases List.eq_nil_or_concat w with hw | ⟨i, b, hw⟩
      · exact absurd hw (h w (by simp))
      · refine ⟨i, b, ?_, w, by simp, by simp [hw, List.concat_eq_append]⟩
        simp [joinSep, hw, List.concat_eq_append]
    · obtain ⟨i, b, hji, w', hw', hbw'⟩ := ih (by simp) (fun x hx => h x (by simp [hx]))
      refine ⟨w ++ ' ' :: i, b, ?_, w', by simp [hw'], hbw'⟩
      rw [joinSepConsCons, hji]
      simp

theorem strictActsOk (ts : List (List Char))
    (h : ∀ t ∈ ts, String.mk (t.map Char.toUpper) ∈ VERBS) :
    strictActs ts = .ok (ts.map (fun t => String.mk (t.map Char.toUpper))) := by
  induction ts with
  | nil => rfl
  | cons t ts ih =>
    simp only [strictActs, if_pos (h t (by simp))]
    rw [ih fun x hx => h x (by simp [hx])]
    simp

theorem strictActsErr (ts : List (List Char)) (t0 : List Char) (hmem : t0 ∈ ts)
    (hbad : String.mk (t0.map Char.toUpper) ∉ VERBS) :
    ∃ m, strictActs ts = .error (.invalidVerb m) := by
  induction ts with
  | nil => simp at hmem
  | cons t ts ih =>
    by_cases hv : String.mk (t.map Char.toUpper) ∈ VERBS
    · have ht0 : t0 ∈ ts := by
        rcases List.mem_cons.mp hmem with rfl | hm
        · exact absurd hv hbad
        · exact hm
      obtain ⟨m, hm⟩ := ih ht0
      refine ⟨m, ?_⟩
      simp only [strictActs, if_pos hv, hm]
    · exact ⟨"Unknown verb in message body: " ++ String.mk t, by
        simp only [strictActs, if_neg hv]⟩

theorem mapUpperVerbs (as : List String) (h : ∀ a ∈ as, a ∈ VERBS) :
    (as.map (fun a => a.data)).map (fun t => String.mk (t.map Char.toUpper)) = as := by
  induction as with
  | nil => rfl
  | cons a as ih =>
    simp only [List.map_cons, List.cons.injEq]
    constructor
    · exact verbsUpperId a (h a (by simp))
    · exact ih fun x hx => h x (by simp [hx])

theorem capToken (v rest : List Char) (hv : ∀ c ∈ v, isPySpace c = false)
    (hr : rest = [] ∨ ∃ rs, rest = ' ' :: rs) :
    (v ++ rest).takeWhile (fun x => !isPySpace x) = v := by
  rw [takeWhileApp, dropWhileAll _ v (fun c hc => by simp [hv c hc])]
  simp only [List.isEmpty_nil, if_true]
  rcases hr with rfl | ⟨rs, rfl⟩
  · simp
  · simp [List.takeWhile_cons, isPySpace]

theorem isPrefixOfFalse2 (a b : Char) (t : List Char) (d : Char) (l : List Char)
    (h : (b == d) = false) :
    (a :: b :: t).isPrefixOf (a :: d :: l) = false := by
  simp [List.isPrefixOf, h]

theorem isPrefixOfFalse3 (a b c : Char) (t : List Char) (d : Char) (l : List Char)
    (h : (c == d) = false) :
    (a :: b :: c :: t).isPrefixOf (a :: b :: d :: l) = false := by
  simp [List.isPrefixOf, h]

theorem envSearch (TO FR MT PR env : List Char)
    (hTO : TO ≠ []) (hTOc : ∀ c ∈ TO, isPySpace c = false ∧ c ≠ '@')
    (hFR : FR ≠ []) (hFRc : ∀ c ∈ FR, isPySpace c = false ∧ c ≠ '@')
    (hMT : MT ≠ []) (hMTc : ∀ c ∈ MT, isPySpace c = false ∧ c ≠ '@')
    (hPR : PR ≠ []) (hPRc : ∀ c ∈ PR, isPySpace c = false ∧ c ≠ '@')
    (henv : env = '@' :: 't' :: 'o' :: ':' ::
      (TO ++ ' ' :: '@' :: 'f' :: 'r' :: ':' ::
        (FR ++ ' ' :: '@' :: 't' :: ':' ::
          (MT ++ ' ' :: '@' :: 'p' :: ':' :: PR)))) :
    searchTag "@to:".data env = some TO ∧
    searchTag "@fr:".data env = some FR ∧
    searchTag "@t:".data env = some MT ∧
    searchTag "@p:".data env = some PR := by
  subst henv
  have hdto : ("@to:" : String).data = ['@', 't', 'o', ':'] := rfl
  have hdfr : ("@fr:" : String).data = ['@', 'f', 'r', ':'] := rfl
  have hdt : ("@t:" : String).data = ['@', 't', ':'] := rfl
  have hdp : ("@p:" : String).data = ['@', 'p', ':'] := rfl
  -- the three inner suffixes of the envelope line
  set R2 : List Char := MT ++ ' ' :: '@' :: 'p' :: ':' :: PR with hR2
  set R1 : List Char := FR ++ ' ' :: '@' :: 't' :: ':' :: R2 with hR1
  set R0 : List Char := TO ++ ' ' :: '@' :: 'f' :: 'r' :: ':' :: R1 with hR0
  refine ⟨?_, ?_, ?_, ?_⟩
  · -- @to: matches at position 0
    rw [hdto]
    rw [show ('@' :: 't' :: 'o' :: ':' :: R0)
        = ['@', 't', 'o', ':'] ++ (TO ++ (' ' :: '@' :: 'f' :: 'r' :: ':' :: R1))
      by simp [hR0]]
    exact searchTagHere _ _ _
      (capToken TO _ (fun c hc => (hTOc c hc).1) (Or.inr ⟨_, rfl⟩)) hTO
  · -- @fr: skip the @to: tag and the to-token, then match
    rw [hdfr]
    rw [searchTagSkipHead _ '@' _
      (isPrefixOfFalse2 '@' 'f' _ 't' _ (by decide))]
    rw [show ('t' :: 'o' :: ':' :: R0)
        = (('t' :: 'o' :: ':' :: TO) ++ [' ']) ++ ('@' :: 'f' :: 'r' :: ':' :: R1)
      by simp [hR0]]
    rw [searchTagSkipChunk '@' _ _ _ (by
      intro c hc
      simp only [List.mem_append, List.mem_cons] at hc
      rcases hc with ((rfl | rfl | rfl | hc) | hc)
      · decide
      · decide
      · decide
      · exact (hTOc c hc).2
      · simp at hc
        subst hc
        decide)]
    rw [show ('@' :: 'f' :: 'r' :: ':' :: R1)
        = ['@', 'f', 'r', ':'] ++ (FR ++ (' ' :: '@' :: 't' :: ':' :: R2))
      by simp [hR1]]
    exact searchTagHere _ _ _
      (capToken FR _ (fun c hc => (hFRc c hc).1) (Or.inr ⟨_, rfl⟩)) hFR
  · -- @t: skip @to: (mismatch at the third character) and the to-token,
    -- then skip the @fr: tag and the fr-token, then match
    rw [hdt]
    rw [searchTagSkipHead _ '@' _
      (isPrefixOfFalse3 '@' 't' ':' _ 'o' _ (by decide))]
    rw [show ('t' :: 'o' :: ':' :: R0)
        = (('t' :: 'o' :: ':' :: TO) ++ [' ']) ++ ('@' :: 'f' :: 'r' :: ':' :: R1)
      by simp [hR0]]
    rw [searchTagSkipChunk '@' _ _ _ (by
      intro c hc
      simp only [List.mem_append, List.mem_cons] at hc
      rcases hc with ((rfl | rfl | rfl | hc) | hc)
      · decide
      · decide
      · decide
      · exact (hTOc c hc).2
      · simp at hc
        subst hc
        decide)]
    rw [searchTagSkipHead _ '@' _
      (isPrefixOfFalse2 '@' 't' _ 'f' _ (by decide))]
    rw [show ('f' :: 'r' :: ':' :: R1)
        = (('f' :: 'r' :: ':' :: FR) ++ [' ']) ++ ('@' :: 't' :: ':' :: R2)
      by simp [hR1]]
    rw [searchTagSkipChunk '@' _ _ _ (by
      intro c hc
      simp only [List.mem_append, List.mem_cons] at hc
      rcases hc with ((rfl | rfl | rfl | hc) | hc)
      · decide
      · decide
      · decide
      · exact (hFRc c hc).2
      · simp at hc
        subst hc
        decide)]
    rw [show ('@' :: 't' :: ':' :: R2)
        = ['@', 't', ':'] ++ (MT ++ (' ' :: '@' :: 'p' :: ':' :: PR))
      by simp [hR2]]
    exact searchTagHere _ _ _
      (capToken MT _ (fun c hc => (hMTc c hc).1) (Or.inr ⟨_, rfl⟩)) hMT
  · -- @p: skip everything up to the final tag, then match
    rw [hdp]
    rw [searchTagSkipHead _ '@' _
      (isPrefixOfFalse2 '@' 'p' _ 't' _ (by decide))]
    rw [show ('t' :: 'o' :: ':' :: R0)
        = (('t' :: 'o' :: ':' :: TO) ++ [' ']) ++ ('@' :: 'f' :: 'r' :: ':' :: R1)
      by simp [hR0]]
    rw [searchTagSkipChunk '@' _ _ _ (by
      intro c hc
      simp only [List.mem_append, List.mem_cons] at hc
      rcases hc with ((rfl | rfl | rfl | hc) | hc)
      · decide
      · decide
      · decide
      · exact (hTOc c hc).2
      · simp at hc
        subst hc
        decide)]
    rw [searchTagSkipHead _ '@' _
      (isPrefixOfFalse2 '@' 'p' _ 'f' _ (by decide))]
    rw [show ('f' :: 'r' :: ':' :: R1)
        = (('f' :: 'r' :: ':' :: FR) ++ [' ']) ++ ('@' :: 't' :: ':' :: R2)
      by simp [hR1]]
    rw [searchTagSkipChunk '@' _ _ _ (by
      intro c hc
      simp only [List.mem_append, List.mem_cons] at hc
      rcases hc with ((rfl | rfl | rfl | hc) | hc)
      · decide
      · decide
      · decide
      · exact (hFRc c hc).2
      · simp at hc
        subst hc
        decide)]
    rw [searchTagSkipHead _ '@' _
      (isPrefixOfFalse2 '@' 'p' _ 't' _ (by decide))]
    rw [show ('t' :: ':' :: R2)
        = (('t' :: ':' :: MT) ++ [' ']) ++ ('@' :: 'p' :: ':' :: PR)
      by simp [hR2]]
    rw [searchTagSkipChunk '@' _ _ _ (by
      intro c hc
      simp only [List.mem_append, List.mem_cons] at hc
      rcases hc with ((rfl | rfl | hc) | hc)
      · decide
      · decide
      · exact (hMTc c hc).2
      · simp at hc
        subst hc
        decide)]
    rw [show ('@' :: 'p' :: ':' :: PR) = ['@', 'p', ':'] ++ (PR ++ []) by simp]
    exact searchTagHere _ _ _
      (capToken PR _ (fun c hc => (hPRc c hc).1) (Or.inl rfl)) hPR

theorem stripOfEnds (l : List Char) (c : Char) (m : List Char)
    (hhead : l = c :: m) (hc : isPySpace c = false)
    (i : List Char) (b : Char) (hlast : l = i ++ [b]) (hb : isPySpace b = false) :
    stripChars l = l := by
  unfold stripChars
  rw [hhead, lstripOfHead _ _ hc, ← hhead, hlast]
  exact rstripConcat i b hb

theorem stripWordSpaces (x sp : List Char) (hsp : ∀ c ∈ sp, isPySpace c = true)
    (c : Char) (m : List Char) (hhead : x = c :: m) (hc : isPySpace c = false)
    (i : List Char) (b : Char) (hlast : x = i ++ [b]) (hb : isPySpace b = false) :
    stripChars (x ++ sp) = x := by
  unfold stripChars
  rw [hhead, List.cons_append, lstripOfHead _ _ hc, ← List.cons_append, ← hhead]
  rw [rstripAppSpaces _ _ hsp, hlast]
  exact rstripConcat i b hb

theorem stripAllSpaces (l : List Char) (h : ∀ c ∈ l, isPySpace c = true) :
    stripChars l = [] := by
  unfold stripChars lstripChars
  rw [dropWhileAll _ l h]
  rfl

theorem joinMemChar (ws : List (List Char)) (c : Char)
    (h : c ∈ joinSep [' '] ws) : (∃ w ∈ ws, c ∈ w) ∨ c = ' ' := by
  induction ws with
  | nil => simp [joinSep] at h
  | cons w rest ih =>
    rcases rest with _ | ⟨v, vs⟩
    · exact Or.inl ⟨w, by simp, h⟩
    · rw [joinSepConsCons] at h
      simp only [List.mem_append, List.mem_cons] at h
      rcases h with h | h | h
      · exact Or.inl ⟨w, by simp, h⟩
      · exact Or.inr h
      · rcases ih h with ⟨w', hw', hc⟩ | h'
        · exact Or.inl ⟨w', by simp [hw'], hc⟩
        · exact Or.inr h'

theorem wrapJoinEndsBracket (ps : List (List Char)) (hne : ps ≠ []) :
    ∃ i, joinSep [' '] (ps.map (fun p => '[' :: (p ++ [']']))) = i ++ [']'] := by
  induction ps with
  | nil => exact absurd rfl hne
  | cons p rest ih =>
    rcases rest with _ | ⟨q, qs⟩
    · exact ⟨'[' :: p, by simp [joinSep]⟩
    · obtain ⟨i, hi⟩ := ih (by simp)
      refine ⟨('[' :: (p ++ [']'])) ++ ' ' :: i, ?_⟩
      rw [show (p :: q :: qs).map (fun p => '[' :: (p ++ [']']))
          = ('[' :: (p ++ [']'])) :: ('[' :: (q ++ [']']))
              :: qs.map (fun p => '[' :: (p ++ [']']))
        from rfl]
      rw [joinSepConsCons]
      rw [show ('[' :: (q ++ [']'])) :: qs.map (fun p => '[' :: (p ++ [']']))
          = (q :: qs).map (fun p => '[' :: (p ++ [']'])) from rfl]
      rw [hi]
      simp

theorem mapStrUpperVerbs (as : List String) (h : ∀ a ∈ as, a ∈ VERBS) :
    as.map strUpper = as := by
  induction as with
  | nil => rfl
  | cons a as ih =>
    simp only [List.map_cons, List.cons.injEq]
    exact ⟨verbsUpperId a (h a (by simp)), ih fun x hx => h x (by simp [hx])⟩

theorem verbDataFacts (a : String) (h : a ∈ VERBS) :
    a.data ≠ [] ∧ ∀ c ∈ a.data, isPySpace c = false ∧ c ≠ '[' ∧ c ≠ ']'
      ∧ c ≠ '@' ∧ c ≠ '\n' := by
  obtain ⟨hne, hc⟩ := verbsChars a h
  refine ⟨hne, fun c hcm => ?_⟩
  obtain ⟨h1, h2, h3, h4, h5⟩ := hc c hcm
  refine ⟨h1, h3, h4, h5, ?_⟩
  intro he
  subst he
  simp [isPySpace] at h1

theorem verbsJoinHead (as : List String) (hne : as ≠ [])
    (has : ∀ a ∈ as, a ∈ VERBS) :
    ∃ c m, joinSep [' '] (as.map String.data) = c :: m ∧ isPySpace c = false := by
  rcases as with _ | ⟨a, rest⟩
  · exact absurd rfl hne
  · obtain ⟨hane, hac⟩ := verbDataFacts a (has a (by simp))
    rcases hda : a.data with _ | ⟨c, wt⟩
    · exact absurd hda hane
    · obtain ⟨m, hm⟩ := joinSepHeadChar a.data (rest.map String.data) c wt hda
      exact ⟨c, m, hm, (hac c (by simp [hda])).1⟩

theorem verbsJoinLast (as : List String) (hne : as ≠ [])
    (has : ∀ a ∈ as, a ∈ VERBS) :
    ∃ i b, joinSep [' '] (as.map String.data) = i ++ [b] ∧ isPySpace b = false := by
  obtain ⟨i, b, hib, w, hw, hbw⟩ := joinSepLastChar (as.map String.data)
    (by simpa using hne)
    (by
      intro w hw
      simp only [List.mem_map] at hw
      obtain ⟨a, ha, rfl⟩ := hw
      exact (verbDataFacts a (has a ha)).1)
  simp only [List.mem_map] at hw
  obtain ⟨a, ha, rfl⟩ := hw
  exact ⟨i, b, hib, ((verbDataFacts a (has a ha)).2 b hbw).1⟩

theorem verbsJoinChars (as : List String) (has : ∀ a ∈ as, a ∈ VERBS)
    (c : Char) (hc : c ∈ joinSep [' '] (as.map String.data)) :
    c ≠ '[' ∧ c ≠ '\n' := by
  rcases joinMemChar _ c hc with ⟨w, hw, hcw⟩ | rfl
  · simp only [List.mem_map] at hw
    obtain ⟨a, ha, rfl⟩ := hw
    obtain ⟨-, h2, -, -, h5⟩ := (verbDataFacts a (has a ha)).2 c hcw
    exact ⟨h2, h5⟩
  · exact ⟨by decide, by decide⟩

theorem bodyFacts (as ps : List String) (B : List Char)
    (has : ∀ a ∈ as, a ∈ VERBS)
    (hps : ∀ p ∈ ps, p.data ≠ [] ∧ ∀ c ∈ p.data, c ≠ ']' ∧ isLineBreak c = false)
    (hne : ¬(as = [] ∧ ps = []))
    (hB : B = (if ps.isEmpty then strJoin " " as
        else strJoin " " as ++ " " ++
          strJoin " " (ps.map (fun p => "[" ++ p ++ "]"))).data) :
    findParams B = ps.map String.data ∧
    splitWs (stripChars (removeParams B)) = as.map String.data ∧
    (∀ c ∈ B, c ≠ '\n') ∧
    ∃ i b, B = i ++ [b] ∧ isPySpace b = false := by
  rcases ps with _ | ⟨p0, ps'⟩
  · -- no params: the body is just the joined verbs
    have hasne : as ≠ [] := fun h => hne ⟨h, rfl⟩
    have hB' : B = joinSep [' '] (as.map String.data) := by
      rw [hB]
      simp only [List.isEmpty_nil, if_true]
      exact strJoinData " " as
    obtain ⟨c, m, hhead, hcn⟩ := verbsJoinHead as hasne has
    obtain ⟨i, b, hlast, hbn⟩ := verbsJoinLast as hasne has
    have hnb : ∀ x ∈ B, x ≠ '[' := by
      intro x hx
      rw [hB'] at hx
      exact (verbsJoinChars as has x hx).1
    refine ⟨?_, ?_, ?_, ?_⟩
    · rw [show findParams B = findParams (B ++ []) by rw [List.append_nil]]
      rw [findParamsSkip B [] hnb, findParamsNil]
      rfl
    · rw [show removeParams B = removeParams (B ++ []) by rw [List.append_nil]]
      rw [removeParamsSkip B [] hnb, removeParamsNil, List.append_nil]
      rw [hB']
      rw [stripOfEnds _ c m hhead hcn i b hlast hbn]
      exact splitWsJoin _ (by
        intro w hw
        simp only [List.mem_map] at hw
        obtain ⟨a, ha, rfl⟩ := hw
        obtain ⟨h1, h2⟩ := verbDataFacts a (has a ha)
        exact ⟨h1, fun x hx => (h2 x hx).1⟩)
    · intro x hx
      rw [hB'] at hx
      exact (verbsJoinChars as has x hx).2
    · exact ⟨i, b, by rw [hB']; exact hlast, hbn⟩
  · -- at least one param: the body is verbs, a space, then the brackets
    have hwrapd : ∀ p : String, (("[" ++ p ++ "]") : String).data
        = '[' :: (p.data ++ [']']) := by
      intro p
      simp [String.data_append]
    have hmapw : ((p0 :: ps').map (fun p => ("[" ++ p ++ "]" : String))).map String.data
        = ((p0 :: ps').map String.data).map (fun p => '[' :: (p ++ [']'])) := by
      rw [List.map_map, List.map_map]
      exact List.map_congr_left fun p hp => hwrapd p
    have hB' : B = joinSep [' '] (as.map String.data) ++ ' ' ::
        joinSep [' '] (((p0 :: ps').map String.data).map (fun p => '[' :: (p ++ [']']))) := by
      rw [hB]
      simp only [List.isEmpty_cons, Bool.false_eq_true, if_false]
      rw [String.data_append, String.data_append, strJoinData, strJoinData, hmapw]
      simp [String.data_append]
    have hpsd : ∀ p ∈ (p0 :: ps').map String.data, p ≠ [] ∧ ∀ c ∈ p, c ≠ ']' := by
      intro p hp
      simp only [List.mem_map] at hp
      obtain ⟨q, hq, rfl⟩ := hp
      obtain ⟨h1, h2⟩ := hps q hq
      exact ⟨h1, fun c hc => (h2 c hc).1⟩
    have hskipl : ∀ x ∈ joinSep [' '] (as.map String.data) ++ [' '], x ≠ '[' := by
      intro x hx
      simp only [List.mem_append, List.mem_cons] at hx
      rcases hx with hx | hx
      · exact (verbsJoinChars as has x hx).1
      · simp at hx
        subst hx
        decide
    obtain ⟨iw, hiw⟩ := wrapJoinEndsBracket ((p0 :: ps').map String.data) (by simp)
    refine ⟨?_, ?_, ?_, ?_⟩
    · rw [hB']
      rw [show joinSep [' '] (as.map String.data) ++ ' ' ::
          joinSep [' '] (((p0 :: ps').map String.data).map (fun p => '[' :: (p ++ [']'])))
          = (joinSep [' '] (as.map String.data) ++ [' ']) ++
            joinSep [' '] (((p0 :: ps').map String.data).map (fun p => '[' :: (p ++ [']'])))
        by simp]
      rw [findParamsSkip _ _ hskipl]
      exact findParamsJoin _ hpsd
    · rw [hB']
      rw [show joinSep [' '] (as.map String.data) ++ ' ' ::
          joinSep [' '] (((p0 :: ps').map String.data).map (fun p => '[' :: (p ++ [']'])))
          = (joinSep [' '] (as.map String.data) ++ [' ']) ++
            joinSep [' '] (((p0 :: ps').map String.data).map (fun p => '[' :: (p ++ [']'])))
        by simp]
      rw [removeParamsSkip _ _ hskipl]
      rw [removeParamsJoin _ hpsd]
      rcases hcase : as with _ | ⟨a0, as'⟩
      · rw [show joinSep [' '] (([] : List String).map String.data) ++ [' ']
            ++ List.replicate (((p0 :: ps').map String.data).length - 1) ' '
            = ' ' :: List.replicate (((p0 :: ps').map String.data).length - 1) ' '
          by simp [joinSep]]
        rw [stripAllSpaces _ (by
          intro c hc
          simp only [List.mem_cons] at hc
          rcases hc with rfl | hc
          · decide
          · rw [List.eq_of_mem_replicate hc]
            decide)]
        rw [splitWsNil]
        rfl
      · rw [← hcase]
        have hasne : as ≠ [] := by rw [hcase]; simp
        obtain ⟨c, m, hhead, hcn⟩ := verbsJoinHead as hasne has
        obtain ⟨i, b, hlast, hbn⟩ := verbsJoinLast as hasne has
        rw [show joinSep [' '] (as.map String.data) ++ [' ']
            ++ List.replicate (((p0 :: ps').map String.data).length - 1) ' '
            = joinSep [' '] (as.map String.data) ++
              (' ' :: List.replicate (((p0 :: ps').map String.data).length - 1) ' ')
          by simp]
        rw [stripWordSpaces _ _ (by
            intro x hx
            simp only [List.mem_cons] at hx
            rcases hx with rfl | hx
            · decide
            · rw [List.eq_of_mem_replicate hx]
              decide)
          c m hhead hcn i b hlast hbn]
        exact splitWsJoin _ (by
          intro w hw
          simp only [List.mem_map] at hw
          obtain ⟨a, ha, rfl⟩ := hw
          obtain ⟨h1, h2⟩ := verbDataFacts a (has a ha)
          exact ⟨h1, fun x hx => (h2 x hx).1⟩)
    · intro x hx
      rw [hB'] at hx
      simp only [List.mem_append, List.mem_cons] at hx
      rcases hx with hx | hx | hx
      · exact (verbsJoinChars as has x hx).2
      · subst hx
        decide
      · rcases joinMemChar _ x hx with ⟨w, hw, hxw⟩ | rfl
        · simp only [List.mem_map] at hw
          obtain ⟨p, ⟨q, hq, hqd⟩, rfl⟩ := hw
          subst hqd
          simp only [List.mem_cons, List.mem_append] at hxw
          rcases hxw with rfl | hxw | hxw
          · decide
          · obtain ⟨-, h2⟩ := (hps q hq).2 x hxw
            intro he
            subst he
            simp [isLineBreak] at h2
          · simp at hxw
            subst hxw
            decide
        · decide
    · refine ⟨joinSep [' '] (as.map String.data) ++ ' ' :: iw, ']', ?_, by decide⟩
      rw [hB', hiw]
      simp

theorem noNlOfNoSpace (c : Char) (h : isPySpace c = false) : c ≠ '\n' := by
  intro he
  subst he
  simp [isPySpace] at h

theorem buildCompactOk («to» fr mt pr : String) (as ps : List String)
    (hmt : mt ∈ MESSAGE_TYPES) (hpr : pr ∈ PRIORITIES)
    (has : ∀ a ∈ as, a ∈ VERBS) :
    buildCompact «to» fr mt pr as ps none =
      .ok (("@to:" ++ «to» ++ " @fr:" ++ fr ++ " @t:" ++ mt ++ " @p:" ++ pr)
        ++ "\n" ++
        (if ps.isEmpty then strJoin " " as
         else strJoin " " as ++ " " ++
           strJoin " " (ps.map (fun p => "[" ++ p ++ "]")))) := by
  have hmtU := (typesFacts mt hmt).1
  have hprU := (priosFacts pr hpr).1
  have hfind : as.find? (fun v => decide (strUpper v ∉ VERBS)) = none := by
    rw [List.find?_eq_none]
    intro x hx
    simp [verbsUpperId x (has x hx), has x hx]
  simp only [buildCompact, hmtU, hprU, hfind]
  rw [if_neg (not_not_intro hmt), if_neg (not_not_intro hpr)]
  rw [mapStrUpperVerbs as has]

theorem parseBuiltCompact («to» fr mt pr : String) (as ps : List String)
    (hto : WfTok «to») (hfr : WfTok fr)
    (hmt : mt ∈ MESSAGE_TYPES) (hpr : pr ∈ PRIORITIES)
    (has : ∀ a ∈ as, a ∈ VERBS)
    (hps : ∀ p ∈ ps, p.data ≠ [] ∧ ∀ c ∈ p.data, c ≠ ']' ∧ isLineBreak c = false)
    (hne : ¬(as = [] ∧ ps = [])) :
    parseCompact (("@to:" ++ «to» ++ " @fr:" ++ fr ++ " @t:" ++ mt ++ " @p:" ++ pr)
        ++ "\n" ++
        (if ps.isEmpty then strJoin " " as
         else strJoin " " as ++ " " ++
           strJoin " " (ps.map (fun p => "[" ++ p ++ "]")))) true
      = .ok ⟨some «to», some fr, some mt, some pr, as, ps⟩ := by
  obtain ⟨hfp, htk, hnl, i, b, hib, hbn⟩ := bodyFacts as ps
    (if ps.isEmpty then strJoin " " as
     else strJoin " " as ++ " " ++
       strJoin " " (ps.map (fun p => "[" ++ p ++ "]"))).data has hps hne rfl
  have henvd : ("@to:" ++ «to» ++ " @fr:" ++ fr ++ " @t:" ++ mt ++ " @p:" ++ pr).data
      = '@' :: 't' :: 'o' :: ':' ::
        («to».data ++ ' ' :: '@' :: 'f' :: 'r' :: ':' ::
          (fr.data ++ ' ' :: '@' :: 't' :: ':' ::
            (mt.data ++ ' ' :: '@' :: 'p' :: ':' :: pr.data))) := by
    have h1 : ("@to:" : String).data = ['@', 't', 'o', ':'] := rfl
    have h2 : (" @fr:" : String).data = [' ', '@', 'f', 'r', ':'] := rfl
    have h3 : (" @t:" : String).data = [' ', '@', 't', ':'] := rfl
    have h4 : (" @p:" : String).data = [' ', '@', 'p', ':'] := rfl
    simp only [String.data_append, h1, h2, h3, h4, List.cons_append,
      List.append_assoc, List.nil_append]
  obtain ⟨hmtU, hmtne, hmtc⟩ := typesFacts mt hmt
  obtain ⟨hprU, hprne, hprc⟩ := priosFacts pr hpr
  have hsearch := envSearch «to».data fr.data mt.data pr.data
    ("@to:" ++ «to» ++ " @fr:" ++ fr ++ " @t:" ++ mt ++ " @p:" ++ pr).data
    hto.1 (fun c hc => ⟨(hto.2 c hc).1, (hto.2 c hc).2.2⟩)
    hfr.1 (fun c hc => ⟨(hfr.2 c hc).1, (hfr.2 c hc).2.2⟩)
    hmtne (fun c hc => ⟨(hmtc c hc).1, (hmtc c hc).2.2⟩)
    hprne (fun c hc => ⟨(hprc c hc).1, (hprc c hc).2.2⟩)
    henvd
  have envNoNl : ∀ c ∈ ("@to:" ++ «to» ++ " @fr:" ++ fr ++ " @t:" ++ mt
      ++ " @p:" ++ pr).data, c ≠ '\n' := by
    rw [henvd]
    intro c hc
    simp only [List.mem_cons, List.mem_append] at hc
    rcases hc with rfl | rfl | rfl | rfl | hc | rfl | rfl | rfl | rfl | rfl
      | hc | rfl | rfl | rfl | rfl | hc | rfl | rfl | rfl | rfl | hc
    · decide
    · decide
    · decide
    · decide
    · exact noNlOfNoSpace c (hto.2 c hc).1
    · decide
    · decide
    · decide
    · decide
    · decide
    · exact noNlOfNoSpace c (hfr.2 c hc).1
    · decide
    · decide
    · decide
    · decide
    · exact noNlOfNoSpace c (hmtc c hc).1
    · decide
    · decide
    · decide
    · decide
    · exact noNlOfNoSpace c (hprc c hc).1
  have hnld : ("\n" : String).data = ['\n'] := rfl
  have hsd : (("@to:" ++ «to» ++ " @fr:" ++ fr ++ " @t:" ++ mt ++ " @p:" ++ pr)
      ++ "\n" ++
      (if ps.isEmpty then strJoin " " as
       else strJoin " " as ++ " " ++
         strJoin " " (ps.map (fun p => "[" ++ p ++ "]")))).data
      = ("@to:" ++ «to» ++ " @fr:" ++ fr ++ " @t:" ++ mt ++ " @p:" ++ pr).data
        ++ '\n' ::
        (if ps.isEmpty then strJoin " " as
         else strJoin " " as ++ " " ++
           strJoin " " (ps.map (fun p => "[" ++ p ++ "]"))).data := by
    simp [String.data_append, hnld]
  have hstrip : stripChars ((("@to:" ++ «to» ++ " @fr:" ++ fr ++ " @t:" ++ mt
      ++ " @p:" ++ pr) ++ "\n" ++
      (if ps.isEmpty then strJoin " " as
       else strJoin " " as ++ " " ++
         strJoin " " (ps.map (fun p => "[" ++ p ++ "]")))).data)
      = (("@to:" ++ «to» ++ " @fr:" ++ fr ++ " @t:" ++ mt ++ " @p:" ++ pr)
        ++ "\n" ++
        (if ps.isEmpty then strJoin " " as
         else strJoin " " as ++ " " ++
           strJoin " " (ps.map (fun p => "[" ++ p ++ "]")))).data := by
    apply stripOfEnds _ '@'
      (('t' :: 'o' :: ':' ::
        («to».data ++ ' ' :: '@' :: 'f' :: 'r' :: ':' ::
          (fr.data ++ ' ' :: '@' :: 't' :: ':' ::
            (mt.data ++ ' ' :: '@' :: 'p' :: ':' :: pr.data))))
        ++ '\n' ::
        (if ps.isEmpty then strJoin " " as
         else strJoin " " as ++ " " ++
           strJoin " " (ps.map (fun p => "[" ++ p ++ "]"))).data)
      _ (by decide)
      (("@to:" ++ «to» ++ " @fr:" ++ fr ++ " @t:" ++ mt ++ " @p:" ++ pr).data
        ++ '\n' :: i) b _ hbn
    · rw [hsd, henvd]
      rfl
    · rw [hsd, hib]
      simp
  have hsplitL : splitOnChar '\n' ((("@to:" ++ «to» ++ " @fr:" ++ fr ++ " @t:"
      ++ mt ++ " @p:" ++ pr) ++ "\n" ++
      (if ps.isEmpty then strJoin " " as
       else strJoin " " as ++ " " ++
         strJoin " " (ps.map (fun p => "[" ++ p ++ "]")))).data)
      = [("@to:" ++ «to» ++ " @fr:" ++ fr ++ " @t:" ++ mt ++ " @p:" ++ pr).data,
         (if ps.isEmpty then strJoin " " as
          else strJoin " " as ++ " " ++
            strJoin " " (ps.map (fun p => "[" ++ p ++ "]"))).data] := by
    rw [hsd, splitOnCharApp, splitOnCharNoSep '\n' _ envNoNl,
      splitOnCharNoSep '\n' _ hnl]
    rfl
  have hstrict : strictActs (as.map String.data) = .ok as := by
    rw [strictActsOk _ (by
      intro t ht
      simp only [List.mem_map] at ht
      obtain ⟨a, ha, rfl⟩ := ht
      rw [show String.mk (a.data.map Char.toUpper) = strUpper a from rfl]
      rw [verbsUpperId a (has a ha)]
      exact has a ha)]
    rw [mapUpperVerbs as has]
  have hmk : (ps.map String.data).map String.mk = ps := by
    rw [List.map_map]
    rw [show (String.mk ∘ String.data) = id from funext fun p => rfl]
    exact List.map_id ps
  simp only [parseCompact, hstrip, hsplitL]
  rw [show joinSep [' ']
      [(if ps.isEmpty then strJoin " " as
        else strJoin " " as ++ " " ++
          strJoin " " (ps.map (fun p => "[" ++ p ++ "]"))).data]
      = (if ps.isEmpty then strJoin " " as
         else strJoin " " as ++ " " ++
           strJoin " " (ps.map (fun p => "[" ++ p ++ "]"))).data from rfl]
  rw [hsearch.1, hsearch.2.1, hsearch.2.2.1, hsearch.2.2.2, hfp, htk, hstrict, hmk]
  rfl

/-- C2 counterexample: the empty tuple (no actions, no params) is a valid
tuple under the claim's quantifier, but `build` then emits an empty body
line, `strip()` swallows it, and the strict parse fails the two-line check
instead of recovering the envelope. -/
theorem c2_counterexample :
    buildCompact "A" "B" "REQ" "HIGH" [] [] none
      = .ok "@to:A @fr:B @t:REQ @p:HIGH\n" ∧
    parseCompact "@to:A @fr:B @t:REQ @p:HIGH\n" true
      = .error (.parseError
          "Invalid DRIXL message: must have envelope and body lines.") := by
  constructor
  · rfl
  · rfl

/-- C2 (amended): for well-formed tuples — `to`/`fr` nonempty tokens
without whitespace, line breaks or `'@'`; type and priority the uppercase
enumeration values; actions drawn from the vocabulary (uppercase); params
nonempty without `']'` or line-break characters; and at least one action
or param so the body line is nonempty — strict parsing of the built text
recovers exactly the same four envelope fields, the same action list in
order, and the params as the literal bracketed strings supplied, in
order. -/
theorem c2_roundtrip («to» fr mt pr : String) (as ps : List String)
    (hto : WfTok «to») (hfr : WfTok fr)
    (hmt : mt ∈ MESSAGE_TYPES) (hpr : pr ∈ PRIORITIES)
    (has : ∀ a ∈ as, a ∈ VERBS)
    (hps : ∀ p ∈ ps, p.data ≠ [] ∧ ∀ c ∈ p.data, c ≠ ']' ∧ isLineBreak c = false)
    (hne : ¬(as = [] ∧ ps = [])) :
    (buildCompact «to» fr mt pr as ps none).bind (fun s => parseCompact s true)
      = .ok ⟨some «to», some fr, some mt, some pr, as, ps⟩ := by
  rw [buildCompactOk «to» fr mt pr as ps hmt hpr has]
  rw [show ∀ (x : String) (f : String → Except DrixlError ParsedCompact),
      (Except.ok (ε := DrixlError) x).bind f = f x from fun x f => rfl]
  exact parseBuiltCompact «to» fr mt pr as ps hto hfr hmt hpr has hps hne

theorem c2_witness :
    (buildCompact "AGT2" "AGT1" "REQ" "HIGH" ["ANLY", "XTRCT"]
      ["firewall.log", "denied_ips", "out:json"] none).bind
        (fun s => parseCompact s true)
    = .ok ⟨some "AGT2", some "AGT1", some "REQ", some "HIGH",
        ["ANLY", "XTRCT"], ["firewall.log", "denied_ips", "out:json"]⟩ :=
  c2_roundtrip "AGT2" "AGT1" "REQ" "HIGH" _ _ (by decide) (by decide)
    (by decide) (by decide) (by decide) (by decide) (by decide)

theorem memOfMemDropWhile {α : Type} (p : α → Bool) (l : List α) (c : α)
    (h : c ∈ l.dropWhile p) : c ∈ l := by
  have hsplit := List.takeWhile_append_dropWhile p l
  rw [← hsplit]
  exact List.mem_append_right _ h

theorem dropWhileHeadFalse {α : Type} (p : α → Bool) (l : List α) (c : α)
    (m : List α) (h : l.dropWhile p = c :: m) : p c = false := by
  induction l with
  | nil => simp at h
  | cons x xs ih =>
    by_cases hx : p x
    · rw [List.dropWhile_cons, if_pos hx] at h
      exact ih h
    · rw [List.dropWhile_cons, if_neg hx] at h
      injection h with h1 h2
      subst h1
      exact Bool.of_not_eq_true hx

theorem wordsJoinHead (ws : List (List Char)) (hne : ws ≠ [])
    (h : ∀ w ∈ ws, w ≠ [] ∧ ∀ c ∈ w, isPySpace c = false) :
    ∃ c m, joinSep [' '] ws = c :: m ∧ isPySpace c = false := by
  rcases ws with _ | ⟨w, rest⟩
  · exact absurd rfl hne
  · obtain ⟨hwne, hwc⟩ := h w (by simp)
    obtain ⟨c, wt, hw⟩ : ∃ c wt, w = c :: wt := by
      rcases w with _ | ⟨c, wt⟩
      · exact absurd rfl hwne
      · exact ⟨c, wt, rfl⟩
    obtain ⟨m, hm⟩ := joinSepHeadChar w rest c wt hw
    exact ⟨c, m, hm, hwc c (by simp [hw])⟩

theorem wordsJoinLast (ws : List (List Char)) (hne : ws ≠ [])
    (h : ∀ w ∈ ws, w ≠ [] ∧ ∀ c ∈ w, isPySpace c = false) :
    ∃ i b, joinSep [' '] ws = i ++ [b] ∧ isPySpace b = false := by
  obtain ⟨i, b, hib, w, hw, hbw⟩ := joinSepLastChar ws hne (fun w hw => (h w hw).1)
  exact ⟨i, b, hib, (h w hw).2 b hbw⟩

/-- C4: for every action list containing a token outside the vocabulary
(case-insensitively), `build` raises the unknown-verb error; strict parsing
of a compact text whose body tokens contain that token raises the
unknown-verb error too; and lenient parsing of the same text succeeds and
includes the token upper-cased among the returned actions.  The body
tokens are required to be nonempty words without whitespace, line breaks
or brackets (otherwise they would be parsed as params, not actions), and
the envelope line must contain some non-whitespace character and no line
break. -/
theorem c4_unknown_verb («to» fr mt pr env t0 : String) (tokens ps : List String)
    (ctx : Option String)
    (hmt : mt ∈ MESSAGE_TYPES) (hpr : pr ∈ PRIORITIES)
    (htok : ∀ t ∈ tokens, t.data ≠ [] ∧ ∀ c ∈ t.data,
      isPySpace c = false ∧ c ≠ '[' ∧ c ≠ ']')
    (hmem : t0 ∈ tokens) (hbad : strUpper t0 ∉ VERBS)
    (henv1 : ∀ c ∈ env.data, c ≠ '\n')
    (henv2 : ∃ c ∈ env.data, isPySpace c = false) :
    (∃ m, buildCompact «to» fr mt pr tokens ps ctx = .error (.invalidVerb m)) ∧
    (∃ m, parseCompact (env ++ "\n" ++ strJoin " " tokens) true
      = .error (.invalidVerb m)) ∧
    (∃ q, parseCompact (env ++ "\n" ++ strJoin " " tokens) false = .ok q ∧
      q.actions = tokens.map strUpper ∧ strUpper t0 ∈ q.actions) := by
  have hwords : ∀ w ∈ tokens.map String.data, w ≠ [] ∧
      ∀ c ∈ w, isPySpace c = false := by
    intro w hw
    simp only [List.mem_map] at hw
    obtain ⟨t, ht, rfl⟩ := hw
    obtain ⟨h1, h2⟩ := htok t ht
    exact ⟨h1, fun c hc => (h2 c hc).1⟩
  have htokne : tokens ≠ [] := by
    intro h
    rw [h] at hmem
    simp at hmem
  have hmapne : tokens.map String.data ≠ [] := by simpa using htokne
  -- the body line, at character level
  have hBd : (strJoin " " tokens).data = joinSep [' '] (tokens.map String.data) :=
    strJoinData " " tokens
  obtain ⟨bc, bm, hbhead, hbch⟩ := wordsJoinHead _ hmapne hwords
  obtain ⟨bi, bb, hblast, hbbn⟩ := wordsJoinLast _ hmapne hwords
  have hBnb : ∀ c ∈ (strJoin " " tokens).data, c ≠ '[' := by
    intro c hc
    rw [hBd] at hc
    rcases joinMemChar _ c hc with ⟨w, hw, hcw⟩ | rfl
    · simp only [List.mem_map] at hw
      obtain ⟨t, ht, rfl⟩ := hw
      exact ((htok t ht).2 c hcw).2.1
    · decide
  have hBnl : ∀ c ∈ (strJoin " " tokens).data, c ≠ '\n' := by
    intro c hc
    rw [hBd] at hc
    rcases joinMemChar _ c hc with ⟨w, hw, hcw⟩ | rfl
    · simp only [List.mem_map] at hw
      obtain ⟨t, ht, rfl⟩ := hw
      exact noNlOfNoSpace c ((htok t ht).2 c hcw).1
    · decide
  have hnld : ("\n" : String).data = ['\n'] := rfl
  have hsd : (env ++ "\n" ++ strJoin " " tokens).data
      = env.data ++ '\n' :: (strJoin " " tokens).data := by
    simp [String.data_append, hnld]
  have hE'ne : lstripChars env.data ≠ [] := by
    unfold lstripChars
    rw [Ne, List.dropWhile_eq_nil_iff]
    push_neg
    obtain ⟨c, hc1, hc2⟩ := henv2
    exact ⟨c, hc1, by simp [hc2]⟩
  have hstrip : stripChars ((env ++ "\n" ++ strJoin " " tokens).data)
      = lstripChars env.data ++ '\n' :: (strJoin " " tokens).data := by
    rw [hsd]
    unfold stripChars
    rw [show lstripChars (env.data ++ '\n' :: (strJoin " " tokens).data)
        = lstripChars env.data ++ '\n' :: (strJoin " " tokens).data by
      unfold lstripChars
      rw [dropWhileApp]
      rw [if_neg (by simp [List.isEmpty_iff, hE'ne, lstripChars] at hE'ne ⊢; exact hE'ne)]]
    rw [show lstripChars env.data ++ '\n' :: (strJoin " " tokens).data
        = (lstripChars env.data ++ '\n' :: bi) ++ [bb] by
      rw [hBd, hblast]
      simp]
    rw [rstripConcat _ _ hbbn]
  have hE'nl : ∀ c ∈ lstripChars env.data, c ≠ '\n' := fun c hc =>
    henv1 c (memOfMemDropWhile isPySpace env.data c hc)
  have hsplitL : splitOnChar '\n' (stripChars ((env ++ "\n" ++ strJoin " " tokens).data))
      = [lstripChars env.data, (strJoin " " tokens).data] := by
    rw [hstrip, splitOnCharApp]
    rw [splitOnCharNoSep '\n' _ hE'nl]
    rw [splitOnCharNoSep '\n' _ hBnl]
    rfl
  have hbody : splitWs (stripChars (removeParams (strJoin " " tokens).data))
      = tokens.map String.data := by
    rw [show removeParams (strJoin " " tokens).data
        = removeParams ((strJoin " " tokens).data ++ []) by rw [List.append_nil]]
    rw [removeParamsSkip _ [] hBnb, removeParamsNil, List.append_nil]
    rw [hBd]
    rw [stripOfEnds _ bc bm hbhead hbch bi bb hblast hbbn]
    exact splitWsJoin _ hwords
  have hparams : findParams (strJoin " " tokens).data = [] := by
    rw [show findParams (strJoin " " tokens).data
        = findParams ((strJoin " " tokens).data ++ []) by rw [List.append_nil]]
    rw [findParamsSkip _ [] hBnb, findParamsNil]
  refine ⟨?_, ?_, ?_⟩
  · -- build raises the unknown-verb error
    have hfind : (tokens.find? (fun v => decide (strUpper v ∉ VERBS))).isSome := by
      rw [List.find?_isSome]
      exact ⟨t0, hmem, by simp [hbad]⟩
    rcases hf : tokens.find? (fun v => decide (strUpper v ∉ VERBS)) with _ | v
    · rw [hf] at hfind
      simp at hfind
    · refine ⟨"Unknown verb: " ++ v, ?_⟩
      have hmtU := (typesFacts mt hmt).1
      have hprU := (priosFacts pr hpr).1
      simp only [buildCompact, hmtU, hprU, hf]
      rw [if_neg (not_not_intro hmt), if_neg (not_not_intro hpr)]
  · -- strict parse raises the unknown-verb error
    obtain ⟨m, hm⟩ := strictActsErr (tokens.map String.data) t0.data
      (List.mem_map_of_mem _ hmem)
      (by
        rw [show String.mk (t0.data.map Char.toUpper) = strUpper t0 from rfl]
        exact hbad)
    refine ⟨m, ?_⟩
    simp only [parseCompact, hsplitL]
    rw [show joinSep [' '] [(strJoin " " tokens).data]
        = (strJoin " " tokens).data from rfl]
    rw [hparams, hbody, hm]
    simp
  · -- lenient parse succeeds and returns the token upper-cased
    refine ⟨⟨(searchTag "@to:".data (lstripChars env.data)).map String.mk,
      (searchTag "@fr:".data (lstripChars env.data)).map String.mk,
      (searchTag "@t:".data (lstripChars env.data)).map String.mk,
      (searchTag "@p:".data (lstripChars env.data)).map String.mk,
      tokens.map strUpper, []⟩, ?_, rfl, ?_⟩
    · simp only [parseCompact, hsplitL]
      rw [show joinSep [' '] [(strJoin " " tokens).data]
          = (strJoin " " tokens).data from rfl]
      rw [hparams, hbody]
      rw [show (tokens.map String.data).map
          (fun t => String.mk (t.map Char.toUpper)) = tokens.map strUpper by
        rw [List.map_map]
        exact List.map_congr_left fun t ht => rfl]
      rfl
    · exact List.mem_map_of_mem _ hmem

theorem c4_witness :
    (∃ m, buildCompact "A" "B" "REQ" "HIGH" ["ANLY", "FOO"] [] none
      = .error (.invalidVerb m)) ∧
    (∃ m, parseCompact ("@to:A @fr:B @t:REQ @p:HIGH" ++ "\n"
      ++ strJoin " " ["ANLY", "FOO"]) true = .error (.invalidVerb m)) ∧
    (∃ q, parseCompact ("@to:A @fr:B @t:REQ @p:HIGH" ++ "\n"
      ++ strJoin " " ["ANLY", "FOO"]) false = .ok q ∧
      q.actions = ["ANLY", "FOO"].map strUpper ∧ strUpper "FOO" ∈ q.actions) :=
  c4_unknown_verb "A" "B" "REQ" "HIGH" "@to:A @fr:B @t:REQ @p:HIGH" "FOO"
    ["ANLY", "FOO"] [] none (by decide) (by decide) (by decide) (by decide)
    (by decide) (by decide) (by decide)

theorem startsWithChIff (l t : List Char) :
    startsWithCh l t = true ↔ ∃ r, t ++ r = l := by
  induction t generalizing l with
  | nil =>
    simp [startsWithCh, List.isPrefixOf]
  | cons c ct ih =>
    rcases l with _ | ⟨d, dl⟩
    · simp [startsWithCh, List.isPrefixOf]
    · simp only [startsWithCh, List.isPrefixOf, Bool.and_eq_true, beq_iff_eq]
      constructor
      · rintro ⟨rfl, h⟩
        obtain ⟨r, hr⟩ := (ih dl).mp h
        exact ⟨r, by rw [List.cons_append, hr]⟩
      · rintro ⟨r, hr⟩
        rw [List.cons_append] at hr
        injection hr with h1 h2
        exact ⟨h1, (ih dl).mpr ⟨r, h2⟩⟩

theorem dropWhileNoneOfAll {α : Type} (p : α → Bool) (m : List α)
    (h : ∀ c ∈ m, p c = false) : m.dropWhile p = m := by
  rcases m with _ | ⟨c, cm⟩
  · rfl
  · rw [List.dropWhile_cons, if_neg (by simp [h c (by simp)])]

theorem rstripSplit (l : List Char) :
    l = rstripChars l ++ (l.reverse.takeWhile isPySpace).reverse := by
  calc l = l.reverse.reverse := (List.reverse_reverse l).symm
    _ = (l.reverse.takeWhile isPySpace ++ l.reverse.dropWhile isPySpace).reverse := by
        rw [List.takeWhile_append_dropWhile]
    _ = (l.reverse.dropWhile isPySpace).reverse
        ++ (l.reverse.takeWhile isPySpace).reverse := by
        rw [List.reverse_append]

theorem startsRstripEq (l t : List Char) (hne : t ≠ [])
    (hns : ∀ c ∈ t, isPySpace c = false) :
    startsWithCh (rstripChars l) t = startsWithCh l t := by
  by_cases h : startsWithCh l t = true
  · rw [h]
    obtain ⟨r, hr⟩ := (startsWithChIff l t).mp h
    subst hr
    unfold rstripChars
    rw [List.reverse_append, dropWhileApp]
    by_cases hre : (r.reverse.dropWhile isPySpace).isEmpty
    · rw [if_pos hre]
      rw [dropWhileNoneOfAll isPySpace t.reverse
        (fun c hc => hns c (by simpa using hc))]
      rw [List.reverse_reverse]
      exact (startsWithChIff t t).mpr ⟨[], List.append_nil t⟩
    · rw [if_neg hre]
      rw [List.reverse_append, List.reverse_reverse]
      exact (startsWithChIff _ t).mpr ⟨_, rfl⟩
  · have h' : startsWithCh l t = false := by
      rcases hb : startsWithCh l t with _ | _
      · rfl
      · exact absurd hb h
    rw [h']
    rcases hb : startsWithCh (rstripChars l) t with _ | _
    · rfl
    · exfalso
      obtain ⟨r, hr⟩ := (startsWithChIff _ t).mp hb
      apply h
      apply (startsWithChIff l t).mpr
      refine ⟨r ++ (l.reverse.takeWhile isPySpace).reverse, ?_⟩
      rw [← List.append_assoc, hr]
      exact (rstripSplit l).symm

theorem startsStripEq (l t : List Char) (hne : t ≠ [])
    (hns : ∀ c ∈ t, isPySpace c = false) :
    startsWithCh (stripChars l) t = startsWithCh (lstripChars l) t :=
  startsRstripEq (lstripChars l) t hne hns

/-- C9: a text whose first non-whitespace characters begin with `@to:` is
classified compact; one beginning with `<message>` or `<?xml` is classified
structured; any other text raises the unrecognized-format error. -/
theorem c9_detect (s : String) :
    (startsWithCh (lstripChars s.data) "@to:".data = true →
      detect_format s = .ok "compact") ∧
    ((startsWithCh (lstripChars s.data) "<message>".data = true ∨
      startsWithCh (lstripChars s.data) "<?xml".data = true) →
      detect_format s = .ok "structured") ∧
    (startsWithCh (lstripChars s.data) "@to:".data = false →
      startsWithCh (lstripChars s.data) "<message>".data = false →
      startsWithCh (lstripChars s.data) "<?xml".data = false →
      detect_format s = .error (.parseError
        "Unable to detect message format. Must start with '@to:' (compact) or '<message>' (XML)")) := by
  have hat := startsStripEq s.data "@to:".data (by decide) (by decide)
  have hms := startsStripEq s.data "<message>".data (by decide) (by decide)
  have hxm := startsStripEq s.data "<?xml".data (by decide) (by decide)
  refine ⟨?_, ?_, ?_⟩
  · intro h
    have hms' : startsWithCh (stripChars s.data) "<message>".data = false := by
      rcases hb : startsWithCh (stripChars s.data) "<message>".data with _ | _
      · rfl
      · exfalso
        rw [hms] at hb
        obtain ⟨r1, hr1⟩ := (startsWithChIff _ _).mp hb
        obtain ⟨r2, hr2⟩ := (startsWithChIff _ _).mp h
        rw [← hr2] at hr1
        injection hr1 with hh ht
        exact absurd hh (by decide)
    have hxm' : startsWithCh (stripChars s.data) "<?xml".data = false := by
      rcases hb : startsWithCh (stripChars s.data) "<?xml".data with _ | _
      · rfl
      · exfalso
        rw [hxm] at hb
        obtain ⟨r1, hr1⟩ := (startsWithChIff _ _).mp hb
        obtain ⟨r2, hr2⟩ := (startsWithChIff _ _).mp h
        rw [← hr2] at hr1
        injection hr1 with hh ht
        exact absurd hh (by decide)
    simp only [detect_format, hms', hxm', Bool.false_or, Bool.or_self]
    rw [hat, h]
    rfl
  · intro h
    rcases h with h | h
    · simp only [detect_format, hms, h, Bool.true_or]
      rfl
    · simp only [detect_format, hxm, h, Bool.or_true]
      rfl
  · intro h1 h2 h3
    simp only [detect_format, hat, hms, hxm, h1, h2, h3, Bool.or_self]
    rfl

theorem c9_witness :
    detect_format "  @to:AGT2 @fr:AGT1 @t:REQ @p:HIGH\nANLY" = .ok "compact" ∧
    detect_format "<?xml version" = .ok "structured" ∧
    detect_format "hello world" = .error (.parseError
      "Unable to detect message format. Must start with '@to:' (compact) or '<message>' (XML)") :=
  ⟨(c9_detect _).1 (by decide),
   (c9_detect _).2.1 (Or.inr (by decide)),
   (c9_detect _).2.2 (by decide) (by decide) (by decide)⟩

theorem sTypesUpperId : ∀ s ∈ S_MESSAGE_TYPES, strUpper s = s := by decide

theorem sPriosUpperId : ∀ s ∈ S_PRIORITIES, strUpper s = s := by decide

theorem sStatusesUpperId : ∀ s ∈ S_STATUSES, strUpper s = s := by decide

theorem artifactsRoundtrip (l : List Artifact) :
    ((l.map Artifact.toXml).filter (fun c => c.tag == "artifact")).map
      Artifact.fromXml = l := by
  induction l with
  | nil => rfl
  | cons a t ih =>
    simp only [List.map_cons, List.filter_cons]
    rw [if_pos (by rfl)]
    simp only [List.map_cons, ih, List.cons.injEq, and_true]
    rfl

/-- C6: parsing the serialized tree of any valid `StructuredMessage`
reproduces every field exactly, including the artifact sequence with each
artifact's kind, id and content. -/
theorem c6_xml_roundtrip (m : StructuredMessage) (h : m.Valid)
    (g1 g2 g3 g4 : String) :
    StructuredMessage.fromXml m.toXml g1 g2 g3 g4 = .ok m := by
  obtain ⟨h1, h2, h3, h4, h5, h6, h7⟩ := h
  have hred : StructuredMessage.fromXml m.toXml g1 g2 g3 g4
      = mkStructuredMessage m.to m.fr m.msg_type m.intent m.content
        (some m.msg_id) (some m.thread_id) (some m.reply_to) (some m.timestamp)
        m.priority m.status (some m.next_action)
        (((m.artifacts.map Artifact.toXml).filter
          (fun c => c.tag == "artifact")).map Artifact.fromXml)
        g1 g2 g3 := rfl
  have hna : orDefault (some m.next_action) "" = m.next_action := by
    by_cases hx : m.next_action = "" <;> simp [orDefault, hx]
  rw [hred, artifactsRoundtrip]
  unfold mkStructuredMessage
  simp only [hna]
  simp only [orDefault]
  rw [if_neg h4, if_neg h5, if_neg h6, if_neg h7]
  rw [sTypesUpperId _ h1, sPriosUpperId _ h2, sStatusesUpperId _ h3]
  rw [if_neg (not_not_intro h1), if_neg (not_not_intro h2),
    if_neg (not_not_intro h3)]

theorem c6_witness :
    (StructuredMessage.Valid ⟨"MSG-1", "THREAD-1", "NULL",
      "2024-01-01T00:00:00", "HIGH", "AGT2", "AGT1", "REQUEST",
      "analyze logs", "full text", "PENDING", "",
      [⟨"code", "ART-001", "print(1)"⟩, ⟨"data", "ART-002", "rows"⟩]⟩) ∧
    StructuredMessage.fromXml
      (StructuredMessage.toXml ⟨"MSG-1", "THREAD-1", "NULL",
        "2024-01-01T00:00:00", "HIGH", "AGT2", "AGT1", "REQUEST",
        "analyze logs", "full text", "PENDING", "",
        [⟨"code", "ART-001", "print(1)"⟩, ⟨"data", "ART-002", "rows"⟩]⟩)
      "G1" "G2" "G3" "G4"
    = .ok ⟨"MSG-1", "THREAD-1", "NULL", "2024-01-01T00:00:00", "HIGH",
        "AGT2", "AGT1", "REQUEST", "analyze logs", "full text", "PENDING", "",
        [⟨"code", "ART-001", "print(1)"⟩, ⟨"data", "ART-002", "rows"⟩]⟩ :=
  ⟨by decide, c6_xml_roundtrip _ (by decide) "G1" "G2" "G3" "G4"⟩

theorem sctTypeMem (t : String) : sctType t ∈ MESSAGE_TYPES := by
  unfold sctType
  split <;> decide

theorem sctPrioMem (p : String) : sctPrio p ∈ PRIORITIES := by
  unfold sctPrio
  split <;> decide

/-- C8: converting any structured message without an explicit action list
never fails: the converter falls back to the single sentinel verb `EXEC`,
and the produced compact text's body line is exactly `EXEC`. -/
theorem c8_exec_fallback (m : StructuredMessage) :
    ∃ s, structured_to_compact m none none = .ok s ∧ lastLine s = "EXEC" := by
  refine ⟨("@to:" ++ m.to ++ " @fr:" ++ m.fr ++ " @t:" ++ sctType m.msg_type
    ++ " @p:" ++ sctPrio m.priority) ++ "\n" ++ "EXEC", ?_, ?_⟩
  · show buildCompact m.to m.fr (sctType m.msg_type) (sctPrio m.priority)
      ["EXEC"] [] none = _
    have hb := buildCompactOk m.to m.fr (sctType m.msg_type) (sctPrio m.priority)
      ["EXEC"] [] (sctTypeMem _) (sctPrioMem _) (by decide)
    have h2 : (if ([] : List String).isEmpty then strJoin " " ["EXEC"]
        else strJoin " " ["EXEC"] ++ " " ++
          strJoin " " (([] : List String).map (fun p => "[" ++ p ++ "]")))
        = "EXEC" := rfl
    rw [hb, h2]
  · unfold lastLine
    have hnld : ("\n" : String).data = ['\n'] := rfl
    have hd : ((("@to:" ++ m.to ++ " @fr:" ++ m.fr ++ " @t:" ++ sctType m.msg_type
        ++ " @p:" ++ sctPrio m.priority) ++ "\n" ++ "EXEC")).data
        = ("@to:" ++ m.to ++ " @fr:" ++ m.fr ++ " @t:" ++ sctType m.msg_type
          ++ " @p:" ++ sctPrio m.priority).data ++ '\n' :: ("EXEC" : String).data := by
      simp [String.data_append, hnld]
    rw [hd, splitOnCharApp]
    rw [show splitOnChar '\n' ("EXEC" : String).data = [("EXEC" : String).data]
      from rfl]
    rw [getLastDApp]

/-- C10: converting a structured message with an explicit non-empty action
list containing a non-vocabulary token (case-insensitively) raises the
unknown-verb error instead of producing compact text. -/
theorem c10_unknown_verb_structured (m : StructuredMessage) (acts : List String)
    (ps : Option (List String)) (hne : acts ≠ [])
    (hbad : ∃ a ∈ acts, strUpper a ∉ VERBS) :
    ∃ v, structured_to_compact m (some acts) ps = .error (.invalidVerb v) := by
  have hfind : (acts.find? (fun v => decide (strUpper v ∉ VERBS))).isSome := by
    rw [List.find?_isSome]
    obtain ⟨a, ha, hb⟩ := hbad
    exact ⟨a, ha, by simp [hb]⟩
  rcases hf : acts.find? (fun v => decide (strUpper v ∉ VERBS)) with _ | v
  · rw [hf] at hfind
    simp at hfind
  · refine ⟨"Unknown verb: " ++ v, ?_⟩
    have hae : acts.isEmpty = false := by
      rcases acts with _ | ⟨a, t⟩
      · exact absurd rfl hne
      · rfl
    have hmtU := (typesFacts _ (sctTypeMem m.msg_type)).1
    have hprU := (priosFacts _ (sctPrioMem m.priority)).1
    simp only [structured_to_compact, hae, Bool.false_eq_true, if_false]
    simp only [buildCompact, hmtU, hprU, hf]
    rw [if_neg (not_not_intro (sctTypeMem m.msg_type)),
      if_neg (not_not_intro (sctPrioMem m.priority))]

theorem c10_witness :
    ∃ v, structured_to_compact
      ⟨"M", "T", "NULL", "TS", "HIGH", "A", "B", "REQUEST", "i", "c",
        "PENDING", "", []⟩
      (some ["ANLY", "DANCE"]) none = .error (.invalidVerb v) :=
  c10_unknown_verb_structured _ ["ANLY", "DANCE"] none (by decide)
    ⟨"DANCE", by decide, by decide⟩

theorem ctsTypeUpper (t : Option String) : strUpper (ctsType t) = ctsType t := by
  unfold ctsType
  split <;> decide

theorem ctsPrioUpper (p : Option String) : strUpper (ctsPrio p) = ctsPrio p := by
  unfold ctsPrio
  split <;> decide

theorem ctsPrioNeBlocking (p : Option String) : strUpper (ctsPrio p) ≠ "BLOCKING" := by
  unfold ctsPrio
  split <;> decide

theorem sctTypeUpper (t : String) : strUpper (sctType t) = sctType t :=
  (typesFacts _ (sctTypeMem t)).1

theorem sctPrioUpper (p : String) : strUpper (sctPrio p) = sctPrio p :=
  (priosFacts _ (sctPrioMem p)).1

/-- C7: the converter's enumeration mappings are the fixed tables, in both
directions, for every message carrying each enum value: a successfully
converted compact message gets exactly the table image of its parsed type
and priority (and never `BLOCKING`); a successfully converted structured
message's compact envelope carries exactly the table image of its type and
priority; and the two tables are REQ→REQUEST, RES→RESPONSE, ERR→ESCALATE,
FIN→FINALIZE, HIGH→HIGH, MED→NORMAL, LOW→LOW and REQUEST/DELEGATE→REQ,
RESPONSE/CRITIQUE/ACK→RES, ESCALATE→ERR, FINALIZE→FIN, HIGH→HIGH,
NORMAL→MED, LOW→LOW, BLOCKING→HIGH. -/
theorem c7_mapping_tables :
    (∀ (s : String) (th mi it : Option String) (st : String)
        (na : Option String) (g1 g2 g3 : String) (p : ParsedCompact)
        (r : StructuredMessage),
        messageParse s false = .ok p →
        compact_to_structured s th mi it st na g1 g2 g3 = .ok r →
        r.msg_type = ctsType p.type ∧ r.priority = ctsPrio p.priority ∧
          r.priority ≠ "BLOCKING")
    ∧ (ctsType (some "REQ") = "REQUEST" ∧ ctsType (some "RES") = "RESPONSE"
      ∧ ctsType (some "ERR") = "ESCALATE" ∧ ctsType (some "FIN") = "FINALIZE"
      ∧ ctsPrio (some "HIGH") = "HIGH" ∧ ctsPrio (some "MED") = "NORMAL"
      ∧ ctsPrio (some "LOW") = "LOW")
    ∧ (∀ (m : StructuredMessage) (acts ps : Option (List String)) (out : String),
        structured_to_compact m acts ps = .ok out →
        ∃ body, out = ("@to:" ++ m.to ++ " @fr:" ++ m.fr ++ " @t:"
          ++ sctType m.msg_type ++ " @p:" ++ sctPrio m.priority) ++ "\n" ++ body)
    ∧ (sctType "REQUEST" = "REQ" ∧ sctType "DELEGATE" = "REQ"
      ∧ sctType "RESPONSE" = "RES" ∧ sctType "CRITIQUE" = "RES"
      ∧ sctType "ACK" = "RES" ∧ sctType "ESCALATE" = "ERR"
      ∧ sctType "FINALIZE" = "FIN"
      ∧ sctPrio "HIGH" = "HIGH" ∧ sctPrio "NORMAL" = "MED"
      ∧ sctPrio "LOW" = "LOW" ∧ sctPrio "BLOCKING" = "HIGH") := by
  refine ⟨?_, by decide, ?_, by decide⟩
  · intro s th mi it st na g1 g2 g3 p r hp hc
    unfold compact_to_structured at hc
    simp only [hp] at hc
    simp only [mkStructuredMessage] at hc
    split at hc
    · exact Except.noConfusion hc
    · split at hc
      · exact Except.noConfusion hc
      · split at hc
        · exact Except.noConfusion hc
        · injection hc with h
          subst h
          exact ⟨ctsTypeUpper p.type, ctsPrioUpper p.priority,
            ctsPrioNeBlocking p.priority⟩
  · intro m acts ps out h
    simp only [structured_to_compact, buildCompact] at h
    split at h
    · exact Except.noConfusion h
    · split at h
      · exact Except.noConfusion h
      · split at h
        · exact Except.noConfusion h
        · injection h with h
          subst h
          rw [sctTypeUpper, sctPrioUpper]
          exact ⟨_, rfl⟩


theorem strictActsMap (ts : List (List Char)) (as : List String)
    (h : strictActs ts = .ok as) :
    as = ts.map (fun t => String.mk (t.map Char.toUpper)) := by
  induction ts generalizing as with
  | nil =>
    injection h with h
    subst h
    rfl
  | cons t ts ih =>
    simp only [strictActs] at h
    split at h
    · split at h
      · rename_i as' hact
        injection h with h
        subst h
        simp only [List.map_cons, List.cons.injEq, true_and]
        exact ih as' hact
      · exact Except.noConfusion h
    · exact Except.noConfusion h

theorem parseLenientOfStrict (raw : String) (p : ParsedCompact)
    (h : parseCompact raw true = .ok p) : parseCompact raw false = .ok p := by
  simp only [parseCompact, eq_self_iff_true, if_true, Bool.false_eq_true,
    if_false] at h ⊢
  split at h
  · exact Except.noConfusion h
  · exact Except.noConfusion h
  · rename_i envelope_line rest heq
    split at h
    · rename_i actions hact
      rw [strictActsMap _ _ hact] at h
      exact h
    · exact Except.noConfusion h

theorem c7_witness :
    ((⟨"G1", "G2", "NULL", "G3", "HIGH", "A", "B", "REQUEST",
        "Execute actions: ANLY", "Actions: ANLY", "PENDING", "", []⟩ :
        StructuredMessage).msg_type = ctsType (some "REQ")
      ∧ (⟨"G1", "G2", "NULL", "G3", "HIGH", "A", "B", "REQUEST",
        "Execute actions: ANLY", "Actions: ANLY", "PENDING", "", []⟩ :
        StructuredMessage).priority = ctsPrio (some "HIGH")
      ∧ (⟨"G1", "G2", "NULL", "G3", "HIGH", "A", "B", "REQUEST",
        "Execute actions: ANLY", "Actions: ANLY", "PENDING", "", []⟩ :
        StructuredMessage).priority ≠ "BLOCKING")
    ∧ ∃ body, ("@to:A @fr:B @t:REQ @p:HIGH\nEXEC" : String)
        = ("@to:" ++ "A" ++ " @fr:" ++ "B" ++ " @t:" ++ sctType "REQUEST"
          ++ " @p:" ++ sctPrio "HIGH") ++ "\n" ++ body := by
  have hp : messageParse "@to:A @fr:B @t:REQ @p:HIGH\nANLY" false
      = .ok ⟨some "A", some "B", some "REQ", some "HIGH", ["ANLY"], []⟩ :=
    parseLenientOfStrict _ _
      (parseBuiltCompact "A" "B" "REQ" "HIGH" ["ANLY"] [] (by decide) (by decide)
        (by decide) (by decide) (by decide) (by decide) (by decide))
  have hc : compact_to_structured "@to:A @fr:B @t:REQ @p:HIGH\nANLY" none none
      none "PENDING" none "G1" "G2" "G3"
      = .ok ⟨"G1", "G2", "NULL", "G3", "HIGH", "A", "B", "REQUEST",
        "Execute actions: ANLY", "Actions: ANLY", "PENDING", "", []⟩ := by
    unfold compact_to_structured
    simp only [hp]
    rfl
  exact ⟨c7_mapping_tables.1 "@to:A @fr:B @t:REQ @p:HIGH\nANLY" none none none
      "PENDING" none "G1" "G2" "G3"
      ⟨some "A", some "B", some "REQ", some "HIGH", ["ANLY"], []⟩
      ⟨"G1", "G2", "NULL", "G3", "HIGH", "A", "B", "REQUEST",
        "Execute actions: ANLY", "Actions: ANLY", "PENDING", "", []⟩ hp hc,
    c7_mapping_tables.2.2.1
      ⟨"M", "T", "NULL", "TS", "HIGH", "A", "B", "REQUEST", "i", "c",
        "PENDING", "", []⟩ none none "@to:A @fr:B @t:REQ @p:HIGH\nEXEC" rfl⟩
